import Mathlib

/-!
A shallow embedding of the gmux interactive session core (src/main.rs), its
config data model (src/config.rs) and the branch-status classification
(branch_state_for), together with proofs of the spec's testable properties.

Modelling conventions:
* Rust `String` buffers edited by character index are modelled as `List Char`;
  `byte_index_at` maps a character index to a byte index and clamps past the
  end of the string, which is exactly the clamping behaviour of
  `List.take` / `List.drop`, so the char-level operations below are the
  byte-level Rust operations verbatim.
* Filesystem, git, home-directory, environment-variable and persistence
  effects are external collaborators (spec section 6); they enter the model as
  an explicit `Env` record of pure observation functions plus the outcome of
  `save_config`.
* Paths are `String`s; `normalize` (canonicalize-with-fallback) is translated
  from `normalize` in src/main.rs over `Env.canon`.
-/

namespace Gmux

/-- Unicode White_Space property, the set used by Rust's
`char::is_whitespace` (and hence by `str::trim` and the word motions). -/
def isWS (c : Char) : Bool :=
  let n := c.toNat
  n = 0x9 || n = 0xA || n = 0xB || n = 0xC || n = 0xD || n = 0x20 ||
  n = 0x85 || n = 0xA0 || n = 0x1680 ||
  (0x2000 ≤ n && n ≤ 0x200A) ||
  n = 0x2028 || n = 0x2029 || n = 0x202F || n = 0x205F || n = 0x3000

/-- Rust `str::trim` on a character list: drop leading and trailing
whitespace. -/
def trimChars (cs : List Char) : List Char :=
  ((cs.dropWhile isWS).reverse.dropWhile isWS).reverse

/-- `EntryConfig` from src/config.rs: a registered path plus an optional
editor-command override. -/
structure EntryConfig where
  path : String
  editor : Option String
  deriving Repr, DecidableEq

/-- `GitBranchInfo` from src/main.rs. -/
structure GitBranchInfo where
  name : String
  additions : Nat
  deletions : Nat
  deriving Repr, DecidableEq

/-- `BranchState` from src/main.rs. -/
inductive BranchState where
  | Unknown
  | Ready (info : GitBranchInfo)
  | Missing
  | NotGit
  | Error (msg : String)
  deriving Repr, DecidableEq

/-- `FlowKind` from src/main.rs. -/
inductive FlowKind where
  | Add
  | Edit
  deriving Repr, DecidableEq

/-- `FlowStep` from src/main.rs. -/
inductive FlowStep where
  | Directory
  | Editor
  deriving Repr, DecidableEq

/-- `Mode` from src/main.rs. -/
inductive Mode where
  | Normal
  | Input (flow : FlowKind) (step : FlowStep)
  | ConfirmDelete (index : Nat)
  deriving Repr, DecidableEq

/-- `StatusKind` from src/main.rs. -/
inductive StatusKind where
  | Info
  | Error
  deriving Repr, DecidableEq

/-- `StatusMessage` from src/main.rs, without the wall-clock creation
timestamp (time-based expiry lives in the scheduler loop, outside this
embedding). -/
structure StatusMsg where
  text : String
  kind : StatusKind
  deriving Repr, DecidableEq

/-- `Entry` from src/main.rs: a config entry plus its volatile branch
status. -/
structure Entry where
  config : EntryConfig
  branch : BranchState
  deriving Repr, DecidableEq

/-- The external collaborators consulted by the session core (spec section
6): filesystem observations, the git status prober, home directory and
editor-fallback resolution, path display, and the outcome of
`save_config`. -/
structure Env where
  canon : String → Option String
  pathExists : String → Bool
  isDir : String → Bool
  isGitRepo : String → Bool
  currentBranch : String → Except String String
  diffStat : String → Option (Nat × Nat)
  homeDir : Option String
  editorFallback : Option String
  displayPath : String → String
  saveOk : Bool
  saveErr : String
  launchErr : EntryConfig → Option String

/-- The `App` struct from src/main.rs (the session state). -/
structure AppState where
  configEntries : List EntryConfig
  defaultEditor : Option String
  entries : List Entry
  selected : Nat
  mode : Mode
  inputBuffer : List Char
  inputCursor : Nat
  killBuffer : List Char
  pendingPath : Option String
  editingIndex : Option Nat
  status : Option StatusMsg
  shouldQuit : Bool
  deriving Repr, DecidableEq

/-- `normalize` from src/main.rs: canonicalize, falling back to the raw
path when canonicalization fails. -/
def normalize (env : Env) (p : String) : String :=
  (env.canon p).getD p

/-- `expand_path` from src/main.rs: expand a leading `~/` using the home
directory when available. -/
def expand_path (env : Env) (input : String) : String :=
  if input.startsWith "~/" then
    match env.homeDir with
    | some home => home ++ "/" ++ input.drop 2
    | none => input
  else input

/-! ## Line editor operations (src/main.rs, `App` impl) -/

/-- `App::buffer_len`. -/
def buffer_len (s : AppState) : Nat :=
  s.inputBuffer.length

/-- `App::cursor_to_start`. -/
def cursor_to_start (s : AppState) : AppState :=
  {s with inputCursor := 0}

/-- `App::cursor_to_end`. -/
def cursor_to_end (s : AppState) : AppState :=
  {s with inputCursor := buffer_len s}

/-- `App::move_cursor_left`. -/
def move_cursor_left (s : AppState) : AppState :=
  if 0 < s.inputCursor then {s with inputCursor := s.inputCursor - 1} else s

/-- `App::move_cursor_right`. -/
def move_cursor_right (s : AppState) : AppState :=
  if s.inputCursor < buffer_len s then
    {s with inputCursor := s.inputCursor + 1}
  else s

/-- First loop of `App::word_left_index`: step left over whitespace. -/
def skipWsLeft (chars : List Char) : Nat → Nat
  | 0 => 0
  | idx + 1 =>
    if isWS (chars.getD idx ' ') then skipWsLeft chars idx else idx + 1

/-- Second loop of `App::word_left_index`: step left over word
characters. -/
def skipWordLeft (chars : List Char) : Nat → Nat
  | 0 => 0
  | idx + 1 =>
    if !isWS (chars.getD idx ' ') then skipWordLeft chars idx else idx + 1

/-- `App::word_left_index`. -/
def word_left_index (s : AppState) : Nat :=
  skipWordLeft s.inputBuffer
    (skipWsLeft s.inputBuffer (min s.inputCursor s.inputBuffer.length))

/-- First loop of `App::word_right_index`
(`while idx < chars.len() && chars[idx].is_whitespace() { idx += 1 }`),
written structurally over the unscanned suffix: the second argument is
`chars.drop idx`, whose head is `chars[idx]`. -/
def skipWsRightAux : Nat → List Char → Nat
  | idx, [] => idx
  | idx, c :: rest => if isWS c then skipWsRightAux (idx + 1) rest else idx

/-- First loop of `App::word_right_index`. -/
def skipWsRight (chars : List Char) (idx : Nat) : Nat :=
  skipWsRightAux idx (chars.drop idx)

/-- Second loop of `App::word_right_index`
(`while idx < chars.len() && !chars[idx].is_whitespace() { idx += 1 }`),
structurally over the unscanned suffix. -/
def skipWordRightAux : Nat → List Char → Nat
  | idx, [] => idx
  | idx, c :: rest => if !isWS c then skipWordRightAux (idx + 1) rest else idx

/-- Second loop of `App::word_right_index`. -/
def skipWordRight (chars : List Char) (idx : Nat) : Nat :=
  skipWordRightAux idx (chars.drop idx)

/-- `App::word_right_index`. -/
def word_right_index (s : AppState) : Nat :=
  skipWordRight s.inputBuffer
    (skipWsRight s.inputBuffer (min s.inputCursor s.inputBuffer.length))

/-- `App::move_word_left`. -/
def move_word_left (s : AppState) : AppState :=
  {s with inputCursor := word_left_index s}

/-- `App::move_word_right`. -/
def move_word_right (s : AppState) : AppState :=
  {s with inputCursor := word_right_index s}

/-- `App::insert_char` (insertion point clamped to the end, as by
`byte_index_at`). -/
def insert_char (s : AppState) (c : Char) : AppState :=
  {s with
    inputBuffer :=
      s.inputBuffer.take s.inputCursor ++ [c] ++ s.inputBuffer.drop s.inputCursor,
    inputCursor := s.inputCursor + 1}

/-- `App::insert_str_at_cursor`. -/
def insert_str_at_cursor (s : AppState) (text : List Char) : AppState :=
  if text.isEmpty then s
  else
    {s with
      inputBuffer :=
        s.inputBuffer.take s.inputCursor ++ text ++ s.inputBuffer.drop s.inputCursor,
      inputCursor := s.inputCursor + text.length}

/-- `App::delete_prev_char`. -/
def delete_prev_char (s : AppState) : AppState :=
  if s.inputCursor = 0 then s
  else
    {s with
      inputBuffer :=
        s.inputBuffer.take (s.inputCursor - 1) ++ s.inputBuffer.drop s.inputCursor,
      inputCursor := s.inputCursor - 1}

/-- `App::delete_char`. -/
def delete_char (s : AppState) : AppState :=
  if s.inputCursor ≥ buffer_len s then s
  else
    {s with
      inputBuffer :=
        s.inputBuffer.take s.inputCursor ++ s.inputBuffer.drop (s.inputCursor + 1)}

/-- `App::remove_range`: returns the removed characters together with the
updated state. -/
def remove_range (s : AppState) (start stop : Nat) : List Char × AppState :=
  if start ≥ stop then ([], s)
  else
    ((s.inputBuffer.take stop).drop start,
     {s with inputBuffer := s.inputBuffer.take start ++ s.inputBuffer.drop stop})

/-- `App::kill_prev_word`. -/
def kill_prev_word (s : AppState) : AppState :=
  let newCursor := word_left_index s
  let r := remove_range s newCursor s.inputCursor
  if r.1.isEmpty then r.2
  else {r.2 with killBuffer := r.1, inputCursor := newCursor}

/-- `App::kill_word_forward`. -/
def kill_word_forward (s : AppState) : AppState :=
  let newIndex := word_right_index s
  let r := remove_range s s.inputCursor newIndex
  if r.1.isEmpty then r.2 else {r.2 with killBuffer := r.1}

/-- `App::kill_to_start`. -/
def kill_to_start (s : AppState) : AppState :=
  let r := remove_range s 0 s.inputCursor
  if r.1.isEmpty then r.2
  else {r.2 with killBuffer := r.1, inputCursor := 0}

/-- `App::kill_to_end`. -/
def kill_to_end (s : AppState) : AppState :=
  let r := remove_range s s.inputCursor (buffer_len s)
  if r.1.isEmpty then r.2 else {r.2 with killBuffer := r.1}

/-- `App::yank_kill_buffer`. -/
def yank_kill_buffer (s : AppState) : AppState :=
  if s.killBuffer.isEmpty then s
  else insert_str_at_cursor s s.killBuffer

/-- The line-editor operation alphabet of spec section 4.1. -/
inductive EditOp where
  | insert (c : Char)
  | deleteBefore
  | deleteAfter
  | moveLeft
  | moveRight
  | moveToStart
  | moveToEnd
  | wordLeft
  | wordRight
  | killToStart
  | killToEnd
  | killWordBackward
  | killWordForward
  | yank
  deriving Repr, DecidableEq

/-- Dispatch of one line-editor operation to the corresponding `App`
method. -/
def applyEdit (op : EditOp) (s : AppState) : AppState :=
  match op with
  | .insert c => insert_char s c
  | .deleteBefore => delete_prev_char s
  | .deleteAfter => delete_char s
  | .moveLeft => move_cursor_left s
  | .moveRight => move_cursor_right s
  | .moveToStart => cursor_to_start s
  | .moveToEnd => cursor_to_end s
  | .wordLeft => move_word_left s
  | .wordRight => move_word_right s
  | .killToStart => kill_to_start s
  | .killToEnd => kill_to_end s
  | .killWordBackward => kill_prev_word s
  | .killWordForward => kill_word_forward s
  | .yank => yank_kill_buffer s

/-- Run a sequence of line-editor operations. -/
def applyEdits (ops : List EditOp) (s : AppState) : AppState :=
  ops.foldl (fun t op => applyEdit op t) s

/-- The span a kill operation removes from the buffer of state `s`
(empty for every non-kill operation). -/
def killRemoved (op : EditOp) (s : AppState) : List Char :=
  match op with
  | .killToStart => (remove_range s 0 s.inputCursor).1
  | .killToEnd => (remove_range s s.inputCursor (buffer_len s)).1
  | .killWordBackward => (remove_range s (word_left_index s) s.inputCursor).1
  | .killWordForward => (remove_range s s.inputCursor (word_right_index s)).1
  | _ => []

/-! ## Session state machine operations (src/main.rs, `App` impl) -/

/-- `App::set_status`. -/
def set_status (s : AppState) (kind : StatusKind) (text : String) : AppState :=
  {s with status := some ⟨text, kind⟩}

/-- `App::clear_status`. -/
def clear_status (s : AppState) : AppState :=
  {s with status := none}

/-- `App::sync_entries`: rebuild the displayed projection from the config
entry list (`Entry::from_config` sets branch to `Unknown`). -/
def sync_entries (s : AppState) : AppState :=
  {s with entries := s.configEntries.map (fun c => ⟨c, .Unknown⟩)}

/-- `branch_state_for` from src/main.rs: classify one entry's path. -/
def branch_state_for (env : Env) (entry : EntryConfig) : BranchState :=
  if !env.pathExists entry.path then .Missing
  else if !env.isDir entry.path then .Error "not a dir"
  else if !env.isGitRepo entry.path then .NotGit
  else
    match env.currentBranch entry.path with
    | .ok branch =>
      let diff := (env.diffStat entry.path).getD (0, 0)
      .Ready ⟨branch, diff.1, diff.2⟩
    | .error err => .Error err

/-- `App::refresh_branches`. -/
def refresh_branches (env : Env) (s : AppState) : AppState :=
  {s with entries := s.entries.map (fun e => ⟨e.config, branch_state_for env e.config⟩)}

/-- `App::move_selection_up` (wraps at the top). -/
def move_selection_up (s : AppState) : AppState :=
  if s.entries.isEmpty then s
  else if s.selected = 0 then {s with selected := s.entries.length - 1}
  else {s with selected := s.selected - 1}

/-- `App::move_selection_down` (wraps at the bottom). -/
def move_selection_down (s : AppState) : AppState :=
  if s.entries.isEmpty then s
  else {s with selected := (s.selected + 1) % s.entries.length}

/-- The matching predicate of `App::save_entry`: canonicalized-path
equality. -/
def entryMatches (env : Env) (path : String) (e : EntryConfig) : Bool :=
  normalize env e.path == normalize env path

/-- The entry-list mutation of `App::save_entry`: replace the first
canonicalized-path match in place, else append. -/
def upsertEntry (env : Env) (entries : List EntryConfig) (entry : EntryConfig) :
    List EntryConfig :=
  match entries.findIdx? (entryMatches env entry.path) with
  | some i => entries.set i entry
  | none => entries ++ [entry]

/-- `App::save_entry`. Returns the updated state and `some errorMessage`
when `save_config` failed (in which case the in-memory config mutation has
already happened but the projection is not resynchronized). -/
def save_entry (env : Env) (s : AppState) (path : String) (editor : Option String) :
    AppState × Option String :=
  let entry : EntryConfig := ⟨path, editor⟩
  let s1 := {s with configEntries := upsertEntry env s.configEntries entry}
  if !env.saveOk then (s1, some env.saveErr)
  else
    let s2 := refresh_branches env (sync_entries s1)
    let s3 :=
      if !s2.entries.isEmpty then
        match s2.entries.findIdx? (fun e => entryMatches env path e.config) with
        | some idx => {s2 with selected := idx}
        | none => s2
      else s2
    (s3, none)

/-- `App::update_entry`. -/
def update_entry (env : Env) (s : AppState) (idx : Nat) (path : String)
    (editor : Option String) : AppState × Option String :=
  if idx ≥ s.configEntries.length then (s, some "invalid entry index")
  else
    let s1 :=
      match editor with
      | some cmd => {s with defaultEditor := some cmd}
      | none => s
    let s2 := {s1 with configEntries := s1.configEntries.set idx ⟨path, editor⟩}
    if !env.saveOk then (s2, some env.saveErr)
    else
      let s3 := refresh_branches env (sync_entries s2)
      let s4 :=
        if !s3.entries.isEmpty then
          match s3.entries.findIdx? (fun e => entryMatches env path e.config) with
          | some pos => {s3 with selected := pos}
          | none =>
            if idx < s3.entries.length then {s3 with selected := idx}
            else {s3 with selected := s3.entries.length - 1}
        else {s3 with selected := 0}
      (s4, none)

/-- `App::remove_entry`. Returns the removed entry's path on success. -/
def remove_entry (env : Env) (s : AppState) (idx : Nat) :
    AppState × Except String String :=
  if idx ≥ s.configEntries.length then (s, .error "invalid entry index")
  else
    let removed := (s.configEntries.get? idx).getD ⟨"", none⟩
    let s1 := {s with configEntries := s.configEntries.eraseIdx idx}
    if !env.saveOk then (s1, .error env.saveErr)
    else
      let s2 := refresh_branches env (sync_entries s1)
      let s3 :=
        if s2.entries.isEmpty then {s2 with selected := 0}
        else if s2.selected ≥ s2.entries.length then
          {s2 with selected := s2.entries.length - 1}
        else s2
      (s3, .ok removed.path)

/-- `App::start_add_flow`. -/
def start_add_flow (s : AppState) : AppState :=
  set_status
    { s with
      mode := .Input .Add .Directory, inputBuffer := [], inputCursor := 0,
      killBuffer := [], pendingPath := none, editingIndex := none }
    .Info "Enter directory path"

/-- `App::start_edit_flow`. -/
def start_edit_flow (s : AppState) : AppState :=
  if s.entries.isEmpty then s
  else
    let idx := min s.selected (s.entries.length - 1)
    let entry := ((s.entries.get? idx).getD ⟨⟨"", none⟩, .Unknown⟩).config
    set_status
      { s with
        mode := .Input .Edit .Directory,
        inputBuffer := entry.path.toList,
        inputCursor := entry.path.toList.length,
        killBuffer := [], pendingPath := some entry.path, editingIndex := some idx }
      .Info "Edit directory path and press enter"

/-- `App::request_remove`. -/
def request_remove (env : Env) (s : AppState) : AppState :=
  if s.entries.isEmpty then s
  else
    let idx := min s.selected (s.entries.length - 1)
    let pathStr :=
      env.displayPath (((s.entries.get? idx).getD ⟨⟨"", none⟩, .Unknown⟩).config.path)
    set_status {s with mode := .ConfirmDelete idx} .Info
      ("Press Enter to remove " ++ pathStr ++ " or Esc to cancel")

/-- `App::cancel_flow`. -/
def cancel_flow (s : AppState) : AppState :=
  { s with
    mode := .Normal, inputBuffer := [], inputCursor := 0,
    pendingPath := none, editingIndex := none, killBuffer := [] }

/-- `App::editor_prefill`: entry override, else session default editor,
else environment fallback, else empty. -/
def editor_prefill (env : Env) (s : AppState) (entry : Option EntryConfig) : String :=
  match entry.bind (fun e => e.editor) with
  | some cmd => cmd
  | none =>
    match s.defaultEditor with
    | some cmd => cmd
    | none => env.editorFallback.getD ""

/-- `App::complete_directory_step`. Returns the updated state and
`some errorMessage` on validation failure. -/
def complete_directory_step (env : Env) (s : AppState) (flow : FlowKind) :
    AppState × Option String :=
  let rawPath := trimChars s.inputBuffer
  if rawPath.isEmpty then (s, some "directory path cannot be empty")
  else
    let path := expand_path env (String.mk rawPath)
    let pathDisplay := env.displayPath path
    if !env.pathExists path then (s, some (pathDisplay ++ " does not exist"))
    else if !env.isDir path then (s, some (pathDisplay ++ " is not a directory"))
    else
      let prefill :=
        match flow with
        | .Add => editor_prefill env s none
        | .Edit => editor_prefill env s (s.editingIndex.bind (fun i => s.configEntries.get? i))
      let message :=
        match flow with
        | .Add => "Set editor command (enter to accept current value)"
        | .Edit => "Edit editor command (enter to accept current value)"
      (set_status
        { s with
          pendingPath := some path, mode := .Input flow .Editor,
          inputBuffer := prefill.toList, inputCursor := prefill.toList.length }
        .Info message, none)

/-- The `?`-then-`set_status` sequence of the two commit arms of
`App::complete_editor_step`: on a commit error the error propagates (with
the state as mutated so far); on success the Info status is set. -/
def commit_result (r : AppState × Option String) (okMsg : String) :
    AppState × Option String :=
  match r.2 with
  | some err => (r.1, some err)
  | none => (set_status r.1 .Info okMsg, none)

/-- The tail of `App::complete_editor_step`: on success, return to
`Normal` mode and clear the buffer, cursor, pending path and editing
index; on failure, propagate the error. -/
def finish_flow (r : AppState × Option String) : AppState × Option String :=
  match r.2 with
  | some err => (r.1, some err)
  | none =>
    ({ r.1 with
       mode := .Normal, inputBuffer := [], inputCursor := 0,
       pendingPath := none, editingIndex := none }, none)

/-- The `FlowKind::Add` commit arm of `App::complete_editor_step`. -/
def add_commit (env : Env) (s1 : AppState) (path : String) (editor : Option String) :
    AppState × Option String :=
  commit_result (save_entry env s1 path editor)
    ("Registered " ++ env.displayPath path)

/-- The `FlowKind::Edit` commit arm of `App::complete_editor_step`. -/
def edit_commit (env : Env) (s1 : AppState) (path : String) (editor : Option String) :
    AppState × Option String :=
  match s1.editingIndex with
  | none => (s1, some "no entry selected to edit")
  | some idx =>
    commit_result (update_entry env s1 idx path editor)
      ("Updated " ++ env.displayPath path)

/-- `App::complete_editor_step`. Returns the updated state (carrying any
side effects applied before a failure) and `some errorMessage` on
failure. -/
def complete_editor_step (env : Env) (s : AppState) (flow : FlowKind) :
    AppState × Option String :=
  match s.pendingPath with
  | none => (s, some "no directory captured")
  | some path =>
    let editorString := String.mk (trimChars s.inputBuffer)
    let editor := if editorString = "" then none else some editorString
    let s1 :=
      match editor with
      | some cmd => {s with defaultEditor := some cmd}
      | none => s
    let committed : AppState × Option String :=
      match flow with
      | .Add => add_commit env s1 path editor
      | .Edit => edit_commit env s1 path editor
    finish_flow committed

/-- The step dispatch inside `App::submit_flow_step`. -/
def flow_step_result (env : Env) (s : AppState) (flow : FlowKind) (step : FlowStep) :
    AppState × Option String :=
  match step with
  | .Directory => complete_directory_step env s flow
  | .Editor => complete_editor_step env s flow

/-- `App::submit_flow_step`: run the step, report a failure as an error
status message. -/
def submit_flow_step (env : Env) (s : AppState) (flow : FlowKind) (step : FlowStep) :
    AppState :=
  let r := flow_step_result env s flow step
  match r.2 with
  | some err => set_status r.1 .Error err
  | none => r.1

/-- `App::launch_index`: the launch outcome comes from the external
process-spawn collaborator (`launch_editor`), abstracted as
`Env.launchErr`. -/
def launch_index (env : Env) (s : AppState) (idx : Nat) : AppState :=
  if idx ≥ s.entries.length then s
  else
    let cfg := ((s.entries.get? idx).getD ⟨⟨"", none⟩, .Unknown⟩).config
    match env.launchErr cfg with
    | some err => set_status s .Error err
    | none => set_status s .Info ("Opened " ++ env.displayPath cfg.path)

/-! ## Key dispatch (src/main.rs, `App::handle_key` and helpers) -/

/-- The key codes the handlers inspect (`crossterm::event::KeyCode`);
`Other` stands for every other code, which all dispatch arms ignore. -/
inductive KeyCode where
  | Char (c : Char)
  | Esc
  | Enter
  | Backspace
  | Delete
  | Left
  | Right
  | Home
  | End
  | Up
  | Down
  | Other
  deriving Repr, DecidableEq

/-- The modifier flags of `crossterm::event::KeyModifiers`. -/
structure Mods where
  ctrl : Bool
  alt : Bool
  sup : Bool
  hyper : Bool
  met : Bool
  shift : Bool
  deriving Repr, DecidableEq

/-- A key event: code plus modifiers. -/
structure KeyEvent where
  code : KeyCode
  mods : Mods
  deriving Repr, DecidableEq

/-- `App::handle_confirm_delete`. -/
def handle_confirm_delete (env : Env) (s : AppState) (index : Nat) (key : KeyEvent) :
    AppState :=
  match key.code with
  | .Esc => clear_status {s with mode := .Normal}
  | .Enter =>
    let r := remove_entry env s index
    let s1 :=
      match r.2 with
      | .ok path => set_status r.1 .Info ("Removed " ++ env.displayPath path)
      | .error err => set_status r.1 .Error err
    {s1 with mode := .Normal}
  | _ => s

/-- `App::handle_normal_key`. -/
def handle_normal_key (env : Env) (s : AppState) (key : KeyEvent) : AppState :=
  if key.mods.ctrl = true ∧ key.code = .Char 'n' then move_selection_down s
  else if key.mods.ctrl = true ∧ key.code = .Char 'p' then move_selection_up s
  else
    match key.code with
    | .Char c =>
      if c = 'q' then {s with shouldQuit := true}
      else if c = 'r' then refresh_branches env s
      else if c = 'd' then request_remove env s
      else if c = 'a' then start_add_flow s
      else if c = 'e' then start_edit_flow s
      else if c = 'j' then move_selection_down s
      else if c = 'k' then move_selection_up s
      else if '1' ≤ c ∧ c ≤ '9' then
        let idx := c.toNat - '1'.toNat
        if idx < s.entries.length then launch_index env {s with selected := idx} idx
        else s
      else s
    | .Esc => {s with shouldQuit := true}
    | .Enter => launch_index env s s.selected
    | .Up => move_selection_up s
    | .Down => move_selection_down s
    | _ => s

/-- `App::handle_ctrl_input`: `some` when the combo was handled. -/
def handle_ctrl_input (env : Env) (s : AppState) (flow : FlowKind) (step : FlowStep)
    (code : KeyCode) : Option AppState :=
  match code with
  | .Char c =>
    if c = 'a' then some (cursor_to_start s)
    else if c = 'e' then some (cursor_to_end s)
    else if c = 'b' then some (move_cursor_left s)
    else if c = 'f' then some (move_cursor_right s)
    else if c = 'd' then some (delete_char s)
    else if c = 'h' then some (delete_prev_char s)
    else if c = 'k' then some (kill_to_end s)
    else if c = 'u' then some (kill_to_start s)
    else if c = 'w' then some (kill_prev_word s)
    else if c = 'y' then some (yank_kill_buffer s)
    else if c = 'g' then some (cancel_flow s)
    else if c = 'j' ∨ c = 'm' then some (submit_flow_step env s flow step)
    else none
  | .Home => some (cursor_to_start s)
  | .End => some (cursor_to_end s)
  | .Backspace => some (kill_prev_word s)
  | .Enter => some (submit_flow_step env s flow step)
  | .Left => some (move_word_left s)
  | .Right => some (move_word_right s)
  | .Delete => some (kill_word_forward s)
  | _ => none

/-- `App::handle_alt_input`. -/
def handle_alt_input (s : AppState) : KeyCode → Option AppState
  | .Char c =>
    if c = 'b' then some (move_word_left s)
    else if c = 'f' then some (move_word_right s)
    else if c = 'd' then some (kill_word_forward s)
    else none
  | .Left => some (move_word_left s)
  | .Right => some (move_word_right s)
  | .Delete => some (kill_word_forward s)
  | .Backspace => some (kill_prev_word s)
  | _ => none

/-- `App::handle_super_input`. -/
def handle_super_input (s : AppState) : KeyCode → Option AppState
  | .Backspace => some (kill_to_start s)
  | _ => none

/-- `App::handle_input_key`: control combos first, then super/meta, then
alt, then plain keys; plain character insertion only with no modifier or
shift alone. -/
def handle_input_key (env : Env) (s : AppState) (flow : FlowKind) (step : FlowStep)
    (key : KeyEvent) : AppState :=
  match (if key.mods.ctrl then handle_ctrl_input env s flow step key.code else none) with
  | some s' => s'
  | none =>
    match (if key.mods.sup || key.mods.met then handle_super_input s key.code else none) with
    | some s' => s'
    | none =>
      match (if key.mods.alt then handle_alt_input s key.code else none) with
      | some s' => s'
      | none =>
        match key.code with
        | .Esc => cancel_flow s
        | .Enter => submit_flow_step env s flow step
        | .Backspace => delete_prev_char s
        | .Delete => delete_char s
        | .Left => move_cursor_left s
        | .Right => move_cursor_right s
        | .Home => cursor_to_start s
        | .End => cursor_to_end s
        | .Char c =>
          if !(key.mods.ctrl || key.mods.alt || key.mods.sup || key.mods.hyper || key.mods.met)
          then insert_char s c
          else s
        | _ => s

/-- `App::handle_key`: global interrupt override, then mode dispatch. -/
def handle_key (env : Env) (key : KeyEvent) (s : AppState) : AppState :=
  if key.code = .Char 'c' ∧ key.mods.ctrl = true then {s with shouldQuit := true}
  else
    match s.mode with
    | .Normal => handle_normal_key env s key
    | .Input flow step => handle_input_key env s flow step key
    | .ConfirmDelete index => handle_confirm_delete env s index key

/-- Run a sequence of key events, each under its own environment
snapshot. -/
def handle_keys (evs : List (Env × KeyEvent)) (s : AppState) : AppState :=
  evs.foldl (fun t ek => handle_key ek.1 ek.2 t) s

/-! ## Word-motion scan bounds -/

theorem skipWsLeft_le (chars : List Char) (idx : Nat) : skipWsLeft chars idx ≤ idx := by
  induction idx with
  | zero => simp [skipWsLeft]
  | succ n ih =>
    simp only [skipWsLeft]
    split
    · exact Nat.le_trans ih (Nat.le_succ n)
    · exact Nat.le_refl _

theorem skipWordLeft_le (chars : List Char) (idx : Nat) : skipWordLeft chars idx ≤ idx := by
  induction idx with
  | zero => simp [skipWordLeft]
  | succ n ih =>
    simp only [skipWordLeft]
    split
    · exact Nat.le_trans ih (Nat.le_succ n)
    · exact Nat.le_refl _

theorem word_left_index_le (s : AppState) :
    word_left_index s ≤ min s.inputCursor s.inputBuffer.length :=
  Nat.le_trans (skipWordLeft_le _ _) (skipWsLeft_le _ _)

theorem skipWsRightAux_ge (l : List Char) : ∀ idx, idx ≤ skipWsRightAux idx l := by
  induction l with
  | nil => intro idx; simp [skipWsRightAux]
  | cons c rest ih =>
    intro idx
    simp only [skipWsRightAux]
    split
    · exact Nat.le_trans (Nat.le_succ idx) (ih (idx + 1))
    · exact Nat.le_refl _

theorem skipWsRightAux_le (l : List Char) :
    ∀ idx, skipWsRightAux idx l ≤ idx + l.length := by
  induction l with
  | nil => intro idx; simp [skipWsRightAux]
  | cons c rest ih =>
    intro idx
    simp only [skipWsRightAux]
    split
    · exact Nat.le_trans (ih (idx + 1)) (by simp; omega)
    · simp

theorem skipWordRightAux_ge (l : List Char) : ∀ idx, idx ≤ skipWordRightAux idx l := by
  induction l with
  | nil => intro idx; simp [skipWordRightAux]
  | cons c rest ih =>
    intro idx
    simp only [skipWordRightAux]
    split
    · exact Nat.le_trans (Nat.le_succ idx) (ih (idx + 1))
    · exact Nat.le_refl _

theorem skipWordRightAux_le (l : List Char) :
    ∀ idx, skipWordRightAux idx l ≤ idx + l.length := by
  induction l with
  | nil => intro idx; simp [skipWordRightAux]
  | cons c rest ih =>
    intro idx
    simp only [skipWordRightAux]
    split
    · exact Nat.le_trans (ih (idx + 1)) (by simp; omega)
    · simp

theorem skipWsRight_le (chars : List Char) (idx : Nat) (h : idx ≤ chars.length) :
    skipWsRight chars idx ≤ chars.length := by
  have := skipWsRightAux_le (chars.drop idx) idx
  simp only [List.length_drop] at this
  unfold skipWsRight
  omega

theorem skipWsRight_ge (chars : List Char) (idx : Nat) : idx ≤ skipWsRight chars idx :=
  skipWsRightAux_ge _ _

theorem skipWordRight_le (chars : List Char) (idx : Nat) (h : idx ≤ chars.length) :
    skipWordRight chars idx ≤ chars.length := by
  have := skipWordRightAux_le (chars.drop idx) idx
  simp only [List.length_drop] at this
  unfold skipWordRight
  omega

theorem skipWordRight_ge (chars : List Char) (idx : Nat) : idx ≤ skipWordRight chars idx :=
  skipWordRightAux_ge _ _

theorem word_right_index_le (s : AppState) :
    word_right_index s ≤ s.inputBuffer.length :=
  skipWordRight_le _ _ (skipWsRight_le _ _ (Nat.min_le_right _ _))

theorem word_right_index_ge (s : AppState) :
    min s.inputCursor s.inputBuffer.length ≤ word_right_index s :=
  Nat.le_trans (skipWsRight_ge _ _) (skipWordRight_ge _ _)

/-! ## C1: the cursor invariant of the line editor -/

theorem cursor_le_applyEdit (op : EditOp) (s : AppState)
    (h : s.inputCursor ≤ s.inputBuffer.length) :
    (applyEdit op s).inputCursor ≤ (applyEdit op s).inputBuffer.length := by
  have hwl := word_left_index_le s
  have hwr := word_right_index_le s
  cases op with
  | insert c =>
    simp only [applyEdit, insert_char]
    simp
    omega
  | deleteBefore =>
    simp only [applyEdit, delete_prev_char]
    split
    · exact h
    · simp
      omega
  | deleteAfter =>
    simp only [applyEdit, delete_char, buffer_len]
    split
    · exact h
    · simp
      omega
  | moveLeft =>
    simp only [applyEdit, move_cursor_left]
    split
    · simp
      omega
    · exact h
  | moveRight =>
    simp only [applyEdit, move_cursor_right, buffer_len]
    split
    · simp
      omega
    · exact h
  | moveToStart =>
    simp [applyEdit, cursor_to_start]
  | moveToEnd =>
    simp [applyEdit, cursor_to_end, buffer_len]
  | wordLeft =>
    simp only [applyEdit, move_word_left]
    simp
    omega
  | wordRight =>
    simp only [applyEdit, move_word_right]
    simpa using hwr
  | killToStart =>
    simp only [applyEdit, kill_to_start, remove_range]
    by_cases h0 : 0 ≥ s.inputCursor
    · simp [h0]
      omega
    · simp only [h0, if_false]
      split
      next hemp =>
        simp only [List.drop_zero] at hemp
        rw [List.isEmpty_iff, List.take_eq_nil_iff] at hemp
        rcases hemp with h1 | h1
        · omega
        · simp [h1] at h ⊢
          omega
      next => simp
  | killToEnd =>
    simp only [applyEdit, kill_to_end, remove_range, buffer_len]
    by_cases h0 : s.inputCursor ≥ s.inputBuffer.length
    · simp [h0]
      omega
    · simp only [h0, if_false]
      split
      next hemp =>
        rw [List.take_length, List.isEmpty_iff, List.drop_eq_nil_iff] at hemp
        omega
      next =>
        simp
        omega
  | killWordBackward =>
    simp only [applyEdit, kill_prev_word, remove_range]
    by_cases h0 : word_left_index s ≥ s.inputCursor
    · simp [h0]
      omega
    · simp only [h0, if_false]
      split
      next hemp =>
        rw [List.isEmpty_iff] at hemp
        have hlen := congrArg List.length hemp
        simp at hlen
        omega
      next =>
        simp
        omega
  | killWordForward =>
    simp only [applyEdit, kill_word_forward, remove_range]
    by_cases h0 : s.inputCursor ≥ word_right_index s
    · simp [h0]
      omega
    · simp only [h0, if_false]
      split
      next =>
        simp
        omega
      next =>
        simp
        omega
  | yank =>
    simp only [applyEdit, yank_kill_buffer, insert_str_at_cursor]
    split
    · exact h
    next hemp =>
      simp only [hemp, if_false]
      simp
      omega

theorem cursor_le_applyEdits (ops : List EditOp) (s : AppState)
    (h : s.inputCursor ≤ s.inputBuffer.length) :
    (applyEdits ops s).inputCursor ≤ (applyEdits ops s).inputBuffer.length := by
  induction ops generalizing s with
  | nil => exact h
  | cons op rest ih => exact ih (applyEdit op s) (cursor_le_applyEdit op s h)

/-- C1: for every edit-buffer state with cursor within `[0, length]` and
every sequence of line-editor operations, the cursor stays within
`[0, bufferLength]` after every step (i.e. after every prefix of the
sequence), cursor and length both counted in characters. -/
theorem cursor_always_in_bounds (ops : List EditOp) (s : AppState)
    (h : s.inputCursor ≤ buffer_len s) (n : Nat) :
    (applyEdits (ops.take n) s).inputCursor ≤ buffer_len (applyEdits (ops.take n) s) :=
  cursor_le_applyEdits (ops.take n) s h

/-- A base session state used to instantiate the universally quantified
theorems on concrete inputs. -/
def app0 : AppState :=
  ⟨[], none, [], 0, .Normal, [], 0, [], none, none, none, false⟩

/-- Witness for C1 at a concrete operation sequence and state. -/
theorem cursor_always_in_bounds_witness :
    app0.inputCursor ≤ buffer_len app0 ∧
      (applyEdits (([EditOp.insert 'h', EditOp.insert 'i', EditOp.moveLeft,
        EditOp.killToEnd, EditOp.yank]).take 4) app0).inputCursor ≤
        buffer_len (applyEdits (([EditOp.insert 'h', EditOp.insert 'i', EditOp.moveLeft,
          EditOp.killToEnd, EditOp.yank]).take 4) app0) :=
  ⟨by decide,
   cursor_always_in_bounds
     [EditOp.insert 'h', EditOp.insert 'i', EditOp.moveLeft, EditOp.killToEnd, EditOp.yank]
     app0 (by decide) 4⟩

/-! ## C2: the kill-ring frame property -/

theorem remove_range_killBuffer (s : AppState) (a b : Nat) :
    ((remove_range s a b).2).killBuffer = s.killBuffer := by
  simp only [remove_range]
  split <;> rfl

theorem remove_range_cursor (s : AppState) (a b : Nat) :
    ((remove_range s a b).2).inputCursor = s.inputCursor := by
  simp only [remove_range]
  split <;> rfl

theorem killBuffer_applyEdit (op : EditOp) (s : AppState) :
    (applyEdit op s).killBuffer =
      if (killRemoved op s).isEmpty then s.killBuffer else killRemoved op s := by
  cases op with
  | insert c => simp [applyEdit, insert_char, killRemoved]
  | deleteBefore =>
    simp only [applyEdit, delete_prev_char, killRemoved]
    split <;> simp
  | deleteAfter =>
    simp only [applyEdit, delete_char, killRemoved]
    split <;> simp
  | moveLeft =>
    simp only [applyEdit, move_cursor_left, killRemoved]
    split <;> simp
  | moveRight =>
    simp only [applyEdit, move_cursor_right, killRemoved]
    split <;> simp
  | moveToStart => simp [applyEdit, cursor_to_start, killRemoved]
  | moveToEnd => simp [applyEdit, cursor_to_end, killRemoved]
  | wordLeft => simp [applyEdit, move_word_left, killRemoved]
  | wordRight => simp [applyEdit, move_word_right, killRemoved]
  | killToStart =>
    simp only [applyEdit, kill_to_start, killRemoved]
    split
    next hemp => simp [hemp, remove_range_killBuffer]
    next hemp => simp [hemp]
  | killToEnd =>
    simp only [applyEdit, kill_to_end, killRemoved]
    split
    next hemp => simp [hemp, remove_range_killBuffer]
    next hemp => simp [hemp]
  | killWordBackward =>
    simp only [applyEdit, kill_prev_word, killRemoved]
    split
    next hemp => simp [hemp, remove_range_killBuffer]
    next hemp => simp [hemp]
  | killWordForward =>
    simp only [applyEdit, kill_word_forward, killRemoved]
    split
    next hemp => simp [hemp, remove_range_killBuffer]
    next hemp => simp [hemp]
  | yank =>
    have hk : (applyEdit EditOp.yank s).killBuffer = s.killBuffer := by
      simp only [applyEdit, yank_kill_buffer, insert_str_at_cursor]
      split <;> rfl
    simp [killRemoved, hk]

/-- The text held by the kill-ring slot after a run: the span removed by
the most recent kill operation that removed a non-empty span, else the
initial contents. -/
def lastKillAcc : List EditOp → AppState → List Char → List Char
  | [], _, acc => acc
  | op :: rest, s, acc =>
    lastKillAcc rest (applyEdit op s)
      (if (killRemoved op s).isEmpty then acc else killRemoved op s)

theorem killBuffer_applyEdits (ops : List EditOp) (s : AppState) :
    (applyEdits ops s).killBuffer = lastKillAcc ops s s.killBuffer := by
  induction ops generalizing s with
  | nil => rfl
  | cons op rest ih =>
    calc (applyEdits (op :: rest) s).killBuffer
        = (applyEdits rest (applyEdit op s)).killBuffer := rfl
      _ = lastKillAcc rest (applyEdit op s) (applyEdit op s).killBuffer := ih _
      _ = lastKillAcc rest (applyEdit op s)
            (if (killRemoved op s).isEmpty then s.killBuffer else killRemoved op s) := by
          rw [killBuffer_applyEdit]
      _ = lastKillAcc (op :: rest) s s.killBuffer := rfl

/-- C2: after any run of line-editor operations the kill-ring slot holds
exactly the span removed by the most recent kill that removed a non-empty
span (each such kill overwrites the slot, never appends; kills that
remove nothing, and all non-kill operations, leave it untouched);
`deleteBefore` and `deleteAfter` never alter the kill-ring; and `yank`
inserts exactly the current kill-ring text at the cursor while leaving
the kill-ring unchanged, so repeated yanks with no intervening kill
insert the same text each time. -/
theorem kill_ring_tracks_last_kill :
    (∀ (ops : List EditOp) (s : AppState),
      (applyEdits ops s).killBuffer = lastKillAcc ops s s.killBuffer) ∧
    (∀ s : AppState,
      (applyEdit .deleteBefore s).killBuffer = s.killBuffer ∧
      (applyEdit .deleteAfter s).killBuffer = s.killBuffer) ∧
    (∀ s : AppState,
      applyEdit .yank s =
        { s with
          inputBuffer := s.inputBuffer.take s.inputCursor ++ s.killBuffer ++
            s.inputBuffer.drop s.inputCursor,
          inputCursor := s.inputCursor + s.killBuffer.length }) := by
  refine ⟨killBuffer_applyEdits, ?_, ?_⟩
  · intro s
    constructor
    · simp only [applyEdit, delete_prev_char]
      split <;> rfl
    · simp only [applyEdit, delete_char]
      split <;> rfl
  · intro s
    simp only [applyEdit, yank_kill_buffer, insert_str_at_cursor]
    split
    next hemp =>
      rw [List.isEmpty_iff] at hemp
      cases s
      simp only at hemp
      simp [hemp]
    next hemp => rfl

/-! ## C3: word-motion boundary behaviour and the left-then-right round
trip -/

theorem skipWsLeft_no_ws (chars : List Char) (h : ∀ c ∈ chars, isWS c = false) :
    ∀ idx, idx ≤ chars.length → skipWsLeft chars idx = idx := by
  intro idx hle
  cases idx with
  | zero => rfl
  | succ n =>
    simp only [skipWsLeft]
    have hn : n < chars.length := by omega
    rw [List.getD_eq_getElem chars ' ' hn, h _ (List.getElem_mem hn)]
    simp

theorem skipWordLeft_no_ws (chars : List Char) (h : ∀ c ∈ chars, isWS c = false) :
    ∀ idx, idx ≤ chars.length → skipWordLeft chars idx = 0 := by
  intro idx
  induction idx with
  | zero => intro _; rfl
  | succ n ih =>
    intro hle
    simp only [skipWordLeft]
    have hn : n < chars.length := by omega
    rw [List.getD_eq_getElem chars ' ' hn, h _ (List.getElem_mem hn)]
    simp only [Bool.not_false, if_true]
    exact ih (by omega)

theorem skipWsRightAux_no_ws (l : List Char) (h : ∀ c ∈ l, isWS c = false) (idx : Nat) :
    skipWsRightAux idx l = idx := by
  cases l with
  | nil => rfl
  | cons c rest =>
    simp only [skipWsRightAux]
    rw [h c (by simp)]
    simp

theorem skipWordRightAux_no_ws (l : List Char) (h : ∀ c ∈ l, isWS c = false) :
    ∀ idx, skipWordRightAux idx l = idx + l.length := by
  induction l with
  | nil => intro idx; simp [skipWordRightAux]
  | cons c rest ih =>
    intro idx
    simp only [skipWordRightAux]
    rw [h c (by simp)]
    simp only [Bool.not_false, if_true]
    rw [ih (fun x hx => h x (by simp [hx])) (idx + 1)]
    simp
    omega

/-- The concrete state refuting C3 as stated: buffer `"ab"` (a single
word with no embedded whitespace), cursor at 1, strictly inside the
word. -/
def c3CexState : AppState :=
  ⟨[], none, [], 0, .Normal, ['a', 'b'], 1, [], none, none, none, false⟩

/-- C3 counterexample: from position 1 inside the single
whitespace-free word `"ab"`, `wordLeftIndex` then `wordRightIndex` lands
at 2, the end of the word — not back at the original position 1 as the
claim states. -/
theorem word_round_trip_counterexample :
    (∀ c ∈ c3CexState.inputBuffer, isWS c = false) ∧
    0 < c3CexState.inputCursor ∧
    c3CexState.inputCursor < c3CexState.inputBuffer.length ∧
    word_right_index {c3CexState with inputCursor := word_left_index c3CexState} = 2 ∧
    ¬ (word_right_index {c3CexState with inputCursor := word_left_index c3CexState} =
        c3CexState.inputCursor) := by
  decide

/-- C3 (amended): `wordLeftIndex` and `wordRightIndex` never move past
the buffer boundaries and are idempotent there (at cursor 0 the left
motion stays at 0; at cursor = length the right motion stays at length);
and from any position in a buffer that is a single word with no embedded
whitespace, `wordLeftIndex` followed by `wordRightIndex` lands at the end
of the word (the buffer length) — hence it returns the original position
exactly when that position is the end of the word, not from every
interior position as originally claimed. -/
theorem word_index_boundary_and_round_trip (s : AppState)
    (h : s.inputCursor ≤ s.inputBuffer.length) :
    (word_left_index s ≤ s.inputBuffer.length ∧
     word_right_index s ≤ s.inputBuffer.length ∧
     (s.inputCursor = 0 → word_left_index s = 0) ∧
     (s.inputCursor = s.inputBuffer.length →
       word_right_index s = s.inputBuffer.length)) ∧
    ((∀ c ∈ s.inputBuffer, isWS c = false) →
      word_right_index {s with inputCursor := word_left_index s} =
        s.inputBuffer.length ∧
      (word_right_index {s with inputCursor := word_left_index s} = s.inputCursor ↔
        s.inputCursor = s.inputBuffer.length)) := by
  constructor
  · refine ⟨?_, word_right_index_le s, ?_, ?_⟩
    · have := word_left_index_le s
      omega
    · intro hc
      simp [word_left_index, hc, skipWsLeft, skipWordLeft]
    · intro hc
      simp [word_right_index, hc, skipWsRight, skipWordRight, List.drop_length,
        skipWsRightAux, skipWordRightAux]
  · intro hnw
    have hwl0 : word_left_index s = 0 := by
      unfold word_left_index
      rw [Nat.min_eq_left h, skipWsLeft_no_ws _ hnw _ h, skipWordLeft_no_ws _ hnw _ h]
    have hmain : word_right_index {s with inputCursor := word_left_index s} =
        s.inputBuffer.length := by
      rw [hwl0]
      show skipWordRight s.inputBuffer (skipWsRight s.inputBuffer
        (min 0 s.inputBuffer.length)) = s.inputBuffer.length
      rw [Nat.min_eq_left (Nat.zero_le _)]
      unfold skipWsRight skipWordRight
      rw [List.drop_zero, skipWsRightAux_no_ws _ hnw, List.drop_zero,
        skipWordRightAux_no_ws _ hnw]
      simp
    refine ⟨hmain, ?_⟩
    rw [hmain]
    constructor
    · intro he
      omega
    · intro he
      omega

/-- A concrete state exercising the amended C3 round trip non-vacuously:
buffer `"ab"`, cursor at the end of the word. -/
def c3WitState : AppState :=
  ⟨[], none, [], 0, .Normal, ['a', 'b'], 2, [], none, none, none, false⟩

/-- Witness for the amended C3 at a concrete state. -/
theorem word_index_boundary_and_round_trip_witness :
    c3WitState.inputCursor ≤ c3WitState.inputBuffer.length ∧
    ((word_left_index c3WitState ≤ c3WitState.inputBuffer.length ∧
      word_right_index c3WitState ≤ c3WitState.inputBuffer.length ∧
      (c3WitState.inputCursor = 0 → word_left_index c3WitState = 0) ∧
      (c3WitState.inputCursor = c3WitState.inputBuffer.length →
        word_right_index c3WitState = c3WitState.inputBuffer.length)) ∧
     ((∀ c ∈ c3WitState.inputBuffer, isWS c = false) →
       word_right_index {c3WitState with inputCursor := word_left_index c3WitState} =
         c3WitState.inputBuffer.length ∧
       (word_right_index {c3WitState with inputCursor := word_left_index c3WitState} =
           c3WitState.inputCursor ↔
         c3WitState.inputCursor = c3WitState.inputBuffer.length))) :=
  ⟨by decide, word_index_boundary_and_round_trip c3WitState (by decide)⟩

/-! ## C4: the selection invariant -/

/-- Selection invariant of spec section 3: selection within `[0, len-1]`
when the entry list is non-empty, and `0` when it is empty. -/
def selection_inv (s : AppState) : Prop :=
  (s.entries.length = 0 → s.selected = 0) ∧
  (0 < s.entries.length → s.selected < s.entries.length)

instance (s : AppState) : Decidable (selection_inv s) := by
  unfold selection_inv
  infer_instance

theorem inv_congr {s t : AppState} (hlen : t.entries.length = s.entries.length)
    (hsel : t.selected = s.selected) (h : selection_inv s) : selection_inv t := by
  unfold selection_inv at h ⊢
  rw [hlen, hsel]
  exact h

theorem applyEdit_frame (op : EditOp) (s : AppState) :
    (applyEdit op s).entries = s.entries ∧ (applyEdit op s).selected = s.selected := by
  cases op <;>
    simp only [applyEdit, insert_char, delete_prev_char, delete_char, move_cursor_left,
      move_cursor_right, cursor_to_start, cursor_to_end, move_word_left, move_word_right,
      kill_to_start, kill_to_end, kill_prev_word, kill_word_forward, yank_kill_buffer,
      insert_str_at_cursor, remove_range] <;>
    (repeat' split) <;> simp

theorem findIdx?_some_lt {α : Type} {l : List α} {p : α → Bool} {i : Nat}
    (h : l.findIdx? p = some i) : i < l.length := by
  rw [List.findIdx?_eq_some_iff_getElem] at h
  exact h.1

theorem upsertEntry_pos (env : Env) (l : List EntryConfig) (e : EntryConfig) :
    0 < (upsertEntry env l e).length := by
  unfold upsertEntry
  cases hf : l.findIdx? (entryMatches env e.path) with
  | none => simp
  | some i =>
    have hi := findIdx?_some_lt hf
    simp only [List.length_set]
    omega

theorem upsertEntry_self_mem (env : Env) (l : List EntryConfig) (e : EntryConfig) :
    e ∈ upsertEntry env l e := by
  unfold upsertEntry
  cases hf : l.findIdx? (entryMatches env e.path) with
  | none => simp
  | some i =>
    rw [List.findIdx?_eq_some_iff_getElem] at hf
    exact List.mem_set l i hf.1 e

theorem selection_inv_of_lt {t : AppState} (h : t.selected < t.entries.length) :
    selection_inv t := by
  unfold selection_inv
  omega

theorem inv_save_entry (env : Env) (s : AppState) (path : String)
    (editor : Option String) (h : selection_inv s) :
    selection_inv (save_entry env s path editor).1 := by
  unfold save_entry
  by_cases hs : env.saveOk
  · simp only [hs, Bool.not_true, Bool.false_eq_true, if_false]
    have hmem : (⟨path, editor⟩ : EntryConfig) ∈
        upsertEntry env s.configEntries ⟨path, editor⟩ := upsertEntry_self_mem env _ _
    have hpos : 0 < (upsertEntry env s.configEntries ⟨path, editor⟩).length :=
      upsertEntry_pos env _ _
    simp only [refresh_branches, sync_entries]
    split
    next hne =>
      split
      next i hf => exact selection_inv_of_lt (by simpa using findIdx?_some_lt hf)
      next hf =>
        exfalso
        rw [List.findIdx?_eq_none_iff] at hf
        have hm2 := List.mem_map_of_mem
          (fun c => (⟨c, BranchState.Unknown⟩ : Entry)) hmem
        have hm3 := List.mem_map_of_mem
          (fun e => (⟨e.config, branch_state_for env e.config⟩ : Entry)) hm2
        have := hf _ hm3
        simp [entryMatches] at this
    next hne =>
      exfalso
      simp only [Bool.not_eq_true, Bool.not_eq_false', List.isEmpty_iff] at hne
      have hlen : (upsertEntry env s.configEntries ⟨path, editor⟩).length = 0 := by
        have := congrArg List.length hne
        simpa using this
      omega
  · simp only [hs, Bool.not_false, if_true]
    exact inv_congr rfl rfl h

theorem length_pos_of_not_isEmpty {α : Type} {l : List α} (h : (!l.isEmpty) = true) :
    0 < l.length := by
  cases l <;> simp_all

theorem length_pos_of_isEmpty_ne {α : Type} {l : List α} (h : ¬(l.isEmpty = true)) :
    0 < l.length := by
  cases l <;> simp_all

theorem inv_editor_op {s t : AppState}
    (hframe : t.entries = s.entries ∧ t.selected = s.selected)
    (h : selection_inv s) : selection_inv t :=
  inv_congr (congrArg List.length hframe.1) hframe.2 h

theorem inv_update_entry (env : Env) (s : AppState) (idx : Nat) (path : String)
    (editor : Option String) (h : selection_inv s) :
    selection_inv (update_entry env s idx path editor).1 := by
  unfold update_entry
  split
  next => exact h
  next hidx =>
    cases editor <;>
      (by_cases hs : env.saveOk
       · simp only [hs, Bool.not_true, Bool.false_eq_true, if_false, refresh_branches,
           sync_entries]
         split
         next hne =>
           split
           next pos hf => exact selection_inv_of_lt (by simpa using findIdx?_some_lt hf)
           next hf =>
             split
             next hlt => exact selection_inv_of_lt (by simpa using hlt)
             next hge =>
               apply selection_inv_of_lt
               have := length_pos_of_not_isEmpty hne
               simp only []
               omega
         next hne => exact ⟨fun _ => rfl, fun h0 => by simpa using h0⟩
       · simp only [hs, Bool.not_false, if_true]
         exact inv_congr rfl rfl h)

theorem inv_remove_entry (env : Env) (s : AppState) (idx : Nat) (h : selection_inv s) :
    selection_inv (remove_entry env s idx).1 := by
  unfold remove_entry
  split
  next => exact h
  next hidx =>
    by_cases hs : env.saveOk
    · simp only [hs, Bool.not_true, Bool.false_eq_true, if_false, refresh_branches,
        sync_entries]
      split
      next hemp => exact ⟨fun _ => rfl, fun h0 => by simpa using h0⟩
      next hemp =>
        split
        next hge =>
          apply selection_inv_of_lt
          have hpos := length_pos_of_isEmpty_ne hemp
          simp only [] at hpos ⊢
          omega
        next hlt =>
          apply selection_inv_of_lt
          simp only [] at hlt ⊢
          omega
    · simp only [hs, Bool.not_false, if_true]
      exact inv_congr rfl rfl h

theorem cds_frame (env : Env) (s : AppState) (flow : FlowKind) :
    ((complete_directory_step env s flow).1).entries = s.entries ∧
      ((complete_directory_step env s flow).1).selected = s.selected := by
  unfold complete_directory_step set_status
  constructor <;> dsimp only <;> (repeat' split) <;> simp

theorem inv_commit_result {r : AppState × Option String} {msg : String}
    (h : selection_inv r.1) : selection_inv (commit_result r msg).1 := by
  unfold commit_result
  split
  · exact h
  · exact inv_congr rfl rfl h

theorem inv_finish_flow {r : AppState × Option String} (h : selection_inv r.1) :
    selection_inv (finish_flow r).1 := by
  unfold finish_flow
  split
  · exact h
  · exact inv_congr rfl rfl h

theorem inv_add_commit (env : Env) (s1 : AppState) (path : String)
    (ed : Option String) (h : selection_inv s1) :
    selection_inv (add_commit env s1 path ed).1 :=
  inv_commit_result (inv_save_entry env s1 path ed h)

theorem inv_edit_commit (env : Env) (s1 : AppState) (path : String)
    (ed : Option String) (h : selection_inv s1) :
    selection_inv (edit_commit env s1 path ed).1 := by
  unfold edit_commit
  split
  · exact h
  next idx _ => exact inv_commit_result (inv_update_entry env s1 idx path ed h)

theorem inv_ces (env : Env) (s : AppState) (flow : FlowKind) (h : selection_inv s) :
    selection_inv (complete_editor_step env s flow).1 := by
  unfold complete_editor_step
  split
  next => exact h
  next path hp =>
    dsimp only
    apply inv_finish_flow
    have hs1 : selection_inv
        (match (if String.mk (trimChars s.inputBuffer) = "" then none
            else some (String.mk (trimChars s.inputBuffer))) with
          | some cmd => {s with defaultEditor := some cmd}
          | none => s) := by
      split
      · exact inv_congr rfl rfl h
      · exact h
    cases flow <;> dsimp only
    · exact inv_add_commit env _ path _ hs1
    · exact inv_edit_commit env _ path _ hs1

theorem inv_submit (env : Env) (s : AppState) (flow : FlowKind) (step : FlowStep)
    (h : selection_inv s) : selection_inv (submit_flow_step env s flow step) := by
  unfold submit_flow_step flow_step_result
  cases step <;> simp only []
  case Directory =>
    have hf := cds_frame env s flow
    split
    · exact inv_congr (congrArg List.length hf.1) hf.2 h
    · exact inv_congr (congrArg List.length hf.1) hf.2 h
  case Editor =>
    have hc := inv_ces env s flow h
    split
    · exact inv_congr rfl rfl hc
    · exact hc

theorem inv_refresh (env : Env) (s : AppState) (h : selection_inv s) :
    selection_inv (refresh_branches env s) :=
  @inv_congr s (refresh_branches env s) (by simp [refresh_branches]) rfl h

theorem inv_start_add (s : AppState) (h : selection_inv s) :
    selection_inv (start_add_flow s) :=
  inv_congr rfl rfl h

theorem inv_start_edit (s : AppState) (h : selection_inv s) :
    selection_inv (start_edit_flow s) := by
  unfold start_edit_flow
  split
  · exact h
  · exact inv_congr rfl rfl h

theorem inv_request_remove (env : Env) (s : AppState) (h : selection_inv s) :
    selection_inv (request_remove env s) := by
  unfold request_remove
  split
  · exact h
  · exact inv_congr rfl rfl h

theorem inv_launch_index (env : Env) (s : AppState) (idx : Nat) (h : selection_inv s) :
    selection_inv (launch_index env s idx) := by
  unfold launch_index
  split
  next => exact h
  next =>
    dsimp only
    split <;> exact inv_congr rfl rfl h

theorem inv_move_up (s : AppState) (h : selection_inv s) :
    selection_inv (move_selection_up s) := by
  unfold move_selection_up
  split
  next => exact h
  next hne =>
    have hpos := length_pos_of_isEmpty_ne hne
    split
    next h0 =>
      apply selection_inv_of_lt
      simp only []
      omega
    next h0 =>
      apply selection_inv_of_lt
      have hlt := h.2 hpos
      simp only []
      omega

theorem inv_move_down (s : AppState) (h : selection_inv s) :
    selection_inv (move_selection_down s) := by
  unfold move_selection_down
  split
  next => exact h
  next hne =>
    apply selection_inv_of_lt
    have hpos := length_pos_of_isEmpty_ne hne
    simp only []
    exact Nat.mod_lt _ hpos

theorem inv_cursor_to_start (s : AppState) (h : selection_inv s) :
    selection_inv (cursor_to_start s) :=
  inv_congr rfl rfl h

theorem inv_cursor_to_end (s : AppState) (h : selection_inv s) :
    selection_inv (cursor_to_end s) :=
  inv_congr rfl rfl h

theorem inv_move_cursor_left (s : AppState) (h : selection_inv s) :
    selection_inv (move_cursor_left s) := by
  unfold move_cursor_left
  split <;> exact inv_congr rfl rfl h

theorem inv_move_cursor_right (s : AppState) (h : selection_inv s) :
    selection_inv (move_cursor_right s) := by
  unfold move_cursor_right
  split <;> exact inv_congr rfl rfl h

theorem inv_delete_char (s : AppState) (h : selection_inv s) :
    selection_inv (delete_char s) := by
  unfold delete_char
  split <;> exact inv_congr rfl rfl h

theorem inv_delete_prev_char (s : AppState) (h : selection_inv s) :
    selection_inv (delete_prev_char s) := by
  unfold delete_prev_char
  split <;> exact inv_congr rfl rfl h

theorem inv_insert_char (s : AppState) (c : Char) (h : selection_inv s) :
    selection_inv (insert_char s c) :=
  inv_congr rfl rfl h

theorem inv_move_word_left (s : AppState) (h : selection_inv s) :
    selection_inv (move_word_left s) :=
  inv_congr rfl rfl h

theorem inv_move_word_right (s : AppState) (h : selection_inv s) :
    selection_inv (move_word_right s) :=
  inv_congr rfl rfl h

theorem inv_kill_to_start (s : AppState) (h : selection_inv s) :
    selection_inv (kill_to_start s) := by
  unfold kill_to_start remove_range
  dsimp only
  (repeat' split) <;> exact inv_congr rfl rfl h

theorem inv_kill_to_end (s : AppState) (h : selection_inv s) :
    selection_inv (kill_to_end s) := by
  unfold kill_to_end remove_range
  dsimp only
  (repeat' split) <;> exact inv_congr rfl rfl h

theorem inv_kill_prev_word (s : AppState) (h : selection_inv s) :
    selection_inv (kill_prev_word s) := by
  unfold kill_prev_word remove_range
  dsimp only
  (repeat' split) <;> exact inv_congr rfl rfl h

theorem inv_kill_word_forward (s : AppState) (h : selection_inv s) :
    selection_inv (kill_word_forward s) := by
  unfold kill_word_forward remove_range
  dsimp only
  (repeat' split) <;> exact inv_congr rfl rfl h

theorem inv_yank (s : AppState) (h : selection_inv s) :
    selection_inv (yank_kill_buffer s) := by
  unfold yank_kill_buffer insert_str_at_cursor
  (repeat' split) <;> exact inv_congr rfl rfl h

theorem inv_cancel_flow (s : AppState) (h : selection_inv s) :
    selection_inv (cancel_flow s) :=
  inv_congr rfl rfl h

theorem inv_handle_ctrl (env : Env) (s : AppState) (flow : FlowKind) (step : FlowStep)
    (code : KeyCode) (h : selection_inv s) :
    ∀ s', handle_ctrl_input env s flow step code = some s' → selection_inv s' := by
  intro s' heq
  cases code with
  | Char c =>
    simp only [handle_ctrl_input] at heq
    by_cases hc0 : c = 'a'
    · rw [if_pos hc0] at heq
      exact (Option.some.inj heq) ▸ inv_cursor_to_start s h
    · rw [if_neg hc0] at heq
      by_cases hc1 : c = 'e'
      · rw [if_pos hc1] at heq
        exact (Option.some.inj heq) ▸ inv_cursor_to_end s h
      · rw [if_neg hc1] at heq
        by_cases hc2 : c = 'b'
        · rw [if_pos hc2] at heq
          exact (Option.some.inj heq) ▸ inv_move_cursor_left s h
        · rw [if_neg hc2] at heq
          by_cases hc3 : c = 'f'
          · rw [if_pos hc3] at heq
            exact (Option.some.inj heq) ▸ inv_move_cursor_right s h
          · rw [if_neg hc3] at heq
            by_cases hc4 : c = 'd'
            · rw [if_pos hc4] at heq
              exact (Option.some.inj heq) ▸ inv_delete_char s h
            · rw [if_neg hc4] at heq
              by_cases hc5 : c = 'h'
              · rw [if_pos hc5] at heq
                exact (Option.some.inj heq) ▸ inv_delete_prev_char s h
              · rw [if_neg hc5] at heq
                by_cases hc6 : c = 'k'
                · rw [if_pos hc6] at heq
                  exact (Option.some.inj heq) ▸ inv_kill_to_end s h
                · rw [if_neg hc6] at heq
                  by_cases hc7 : c = 'u'
                  · rw [if_pos hc7] at heq
                    exact (Option.some.inj heq) ▸ inv_kill_to_start s h
                  · rw [if_neg hc7] at heq
                    by_cases hc8 : c = 'w'
                    · rw [if_pos hc8] at heq
                      exact (Option.some.inj heq) ▸ inv_kill_prev_word s h
                    · rw [if_neg hc8] at heq
                      by_cases hc9 : c = 'y'
                      · rw [if_pos hc9] at heq
                        exact (Option.some.inj heq) ▸ inv_yank s h
                      · rw [if_neg hc9] at heq
                        by_cases hc10 : c = 'g'
                        · rw [if_pos hc10] at heq
                          exact (Option.some.inj heq) ▸ inv_cancel_flow s h
                        · rw [if_neg hc10] at heq
                          by_cases hc11 : c = 'j' ∨ c = 'm'
                          · rw [if_pos hc11] at heq
                            exact (Option.some.inj heq) ▸ inv_submit env s flow step h
                          · rw [if_neg hc11] at heq
                            exact Option.noConfusion heq
  | Home =>
    simp only [handle_ctrl_input] at heq
    exact (Option.some.inj heq) ▸ inv_cursor_to_start s h
  | End =>
    simp only [handle_ctrl_input] at heq
    exact (Option.some.inj heq) ▸ inv_cursor_to_end s h
  | Backspace =>
    simp only [handle_ctrl_input] at heq
    exact (Option.some.inj heq) ▸ inv_kill_prev_word s h
  | Enter =>
    simp only [handle_ctrl_input] at heq
    exact (Option.some.inj heq) ▸ inv_submit env s flow step h
  | Left =>
    simp only [handle_ctrl_input] at heq
    exact (Option.some.inj heq) ▸ inv_move_word_left s h
  | Right =>
    simp only [handle_ctrl_input] at heq
    exact (Option.some.inj heq) ▸ inv_move_word_right s h
  | Delete =>
    simp only [handle_ctrl_input] at heq
    exact (Option.some.inj heq) ▸ inv_kill_word_forward s h
  | Esc => simp only [handle_ctrl_input] at heq; exact Option.noConfusion heq
  | Up => simp only [handle_ctrl_input] at heq; exact Option.noConfusion heq
  | Down => simp only [handle_ctrl_input] at heq; exact Option.noConfusion heq
  | Other => simp only [handle_ctrl_input] at heq; exact Option.noConfusion heq

theorem inv_handle_alt (s : AppState) (code : KeyCode) (h : selection_inv s) :
    ∀ s', handle_alt_input s code = some s' → selection_inv s' := by
  intro s' heq
  cases code with
  | Char c =>
    simp only [handle_alt_input] at heq
    by_cases hc0 : c = 'b'
    · rw [if_pos hc0] at heq
      exact (Option.some.inj heq) ▸ inv_move_word_left s h
    · rw [if_neg hc0] at heq
      by_cases hc1 : c = 'f'
      · rw [if_pos hc1] at heq
        exact (Option.some.inj heq) ▸ inv_move_word_right s h
      · rw [if_neg hc1] at heq
        by_cases hc2 : c = 'd'
        · rw [if_pos hc2] at heq
          exact (Option.some.inj heq) ▸ inv_kill_word_forward s h
        · rw [if_neg hc2] at heq
          exact Option.noConfusion heq
  | Left =>
    simp only [handle_alt_input] at heq
    exact (Option.some.inj heq) ▸ inv_move_word_left s h
  | Right =>
    simp only [handle_alt_input] at heq
    exact (Option.some.inj heq) ▸ inv_move_word_right s h
  | Delete =>
    simp only [handle_alt_input] at heq
    exact (Option.some.inj heq) ▸ inv_kill_word_forward s h
  | Backspace =>
    simp only [handle_alt_input] at heq
    exact (Option.some.inj heq) ▸ inv_kill_prev_word s h
  | Esc => simp only [handle_alt_input] at heq; exact Option.noConfusion heq
  | Enter => simp only [handle_alt_input] at heq; exact Option.noConfusion heq
  | Home => simp only [handle_alt_input] at heq; exact Option.noConfusion heq
  | End => simp only [handle_alt_input] at heq; exact Option.noConfusion heq
  | Up => simp only [handle_alt_input] at heq; exact Option.noConfusion heq
  | Down => simp only [handle_alt_input] at heq; exact Option.noConfusion heq
  | Other => simp only [handle_alt_input] at heq; exact Option.noConfusion heq

theorem inv_handle_super (s : AppState) (code : KeyCode) (h : selection_inv s) :
    ∀ s', handle_super_input s code = some s' → selection_inv s' := by
  intro s' heq
  cases code with
  | Backspace =>
    simp only [handle_super_input] at heq
    exact (Option.some.inj heq) ▸ inv_kill_to_start s h
  | Char c => simp only [handle_super_input] at heq; exact Option.noConfusion heq
  | Esc => simp only [handle_super_input] at heq; exact Option.noConfusion heq
  | Enter => simp only [handle_super_input] at heq; exact Option.noConfusion heq
  | Delete => simp only [handle_super_input] at heq; exact Option.noConfusion heq
  | Left => simp only [handle_super_input] at heq; exact Option.noConfusion heq
  | Right => simp only [handle_super_input] at heq; exact Option.noConfusion heq
  | Home => simp only [handle_super_input] at heq; exact Option.noConfusion heq
  | End => simp only [handle_super_input] at heq; exact Option.noConfusion heq
  | Up => simp only [handle_super_input] at heq; exact Option.noConfusion heq
  | Down => simp only [handle_super_input] at heq; exact Option.noConfusion heq
  | Other => simp only [handle_super_input] at heq; exact Option.noConfusion heq

theorem inv_handle_input (env : Env) (s : AppState) (flow : FlowKind) (step : FlowStep)
    (key : KeyEvent) (h : selection_inv s) :
    selection_inv (handle_input_key env s flow step key) := by
  unfold handle_input_key
  split
  next s' heq =>
    split at heq
    · exact inv_handle_ctrl env s flow step key.code h s' heq
    · exact Option.noConfusion heq
  next =>
    split
    next s' heq2 =>
      split at heq2
      · exact inv_handle_super s key.code h s' heq2
      · exact Option.noConfusion heq2
    next =>
      split
      next s' heq3 =>
        split at heq3
        · exact inv_handle_alt s key.code h s' heq3
        · exact Option.noConfusion heq3
      next =>
        split
        · exact inv_cancel_flow s h
        · exact inv_submit env s flow step h
        · exact inv_delete_prev_char s h
        · exact inv_delete_char s h
        · exact inv_move_cursor_left s h
        · exact inv_move_cursor_right s h
        · exact inv_cursor_to_start s h
        · exact inv_cursor_to_end s h
        · split
          · exact inv_insert_char s _ h
          · exact h
        · exact h

theorem inv_handle_normal (env : Env) (s : AppState) (key : KeyEvent)
    (h : selection_inv s) : selection_inv (handle_normal_key env s key) := by
  unfold handle_normal_key
  by_cases hn : key.mods.ctrl = true ∧ key.code = KeyCode.Char 'n'
  · rw [if_pos hn]
    exact inv_move_down s h
  · rw [if_neg hn]
    by_cases hp : key.mods.ctrl = true ∧ key.code = KeyCode.Char 'p'
    · rw [if_pos hp]
      exact inv_move_up s h
    · rw [if_neg hp]
      split
      next c hkeq =>
        by_cases hc0 : c = 'q'
        · rw [if_pos hc0]
          exact inv_congr rfl rfl h
        · rw [if_neg hc0]
          by_cases hc1 : c = 'r'
          · rw [if_pos hc1]
            exact inv_refresh env s h
          · rw [if_neg hc1]
            by_cases hc2 : c = 'd'
            · rw [if_pos hc2]
              exact inv_request_remove env s h
            · rw [if_neg hc2]
              by_cases hc3 : c = 'a'
              · rw [if_pos hc3]
                exact inv_start_add s h
              · rw [if_neg hc3]
                by_cases hc4 : c = 'e'
                · rw [if_pos hc4]
                  exact inv_start_edit s h
                · rw [if_neg hc4]
                  by_cases hc5 : c = 'j'
                  · rw [if_pos hc5]
                    exact inv_move_down s h
                  · rw [if_neg hc5]
                    by_cases hc6 : c = 'k'
                    · rw [if_pos hc6]
                      exact inv_move_up s h
                    · rw [if_neg hc6]
                      by_cases hc7 : '1' ≤ c ∧ c ≤ '9'
                      · rw [if_pos hc7]
                        dsimp only
                        split
                        next hlt =>
                          exact inv_launch_index env _ _ (selection_inv_of_lt (by simp only []; exact hlt))
                        next => exact h
                      · rw [if_neg hc7]
                        exact h
      · exact inv_congr rfl rfl h
      · exact inv_launch_index env s s.selected h
      · exact inv_move_up s h
      · exact inv_move_down s h
      · exact h

theorem inv_handle_confirm (env : Env) (s : AppState) (index : Nat) (key : KeyEvent)
    (h : selection_inv s) : selection_inv (handle_confirm_delete env s index key) := by
  unfold handle_confirm_delete
  split
  next => exact inv_editor_op ⟨rfl, rfl⟩ h
  next =>
    dsimp only
    split <;> exact inv_congr rfl rfl (inv_remove_entry env s index h)
  next => exact h

theorem inv_handle_key (env : Env) (key : KeyEvent) (s : AppState)
    (h : selection_inv s) : selection_inv (handle_key env key s) := by
  unfold handle_key
  by_cases hq : key.code = KeyCode.Char 'c' ∧ key.mods.ctrl = true
  · rw [if_pos hq]
    exact inv_congr rfl rfl h
  · rw [if_neg hq]
    split
    next => exact inv_handle_normal env s key h
    next flow step _ => exact inv_handle_input env s flow step key h
    next index _ => exact inv_handle_confirm env s index key h

theorem inv_handle_keys (evs : List (Env × KeyEvent)) (s : AppState)
    (h : selection_inv s) : selection_inv (handle_keys evs s) := by
  induction evs generalizing s with
  | nil => exact h
  | cons ek rest ih => exact ih (handle_key ek.1 ek.2 s) (inv_handle_key ek.1 ek.2 s h)

/-- C4: across every session operation (any sequence of key events, each
dispatched through `handle_key` under an arbitrary environment snapshot)
the selection index stays in `[0, len-1]` while the entry list is
non-empty and is `0` when it is empty; and removing the currently
selected entry from a list of length `n > 1` (projection and config in
sync) leaves the selection at `min(selectedIndex, n-2)`. -/
theorem selection_always_in_bounds :
    (∀ (evs : List (Env × KeyEvent)) (s : AppState),
      selection_inv s → selection_inv (handle_keys evs s)) ∧
    (∀ (env : Env) (s : AppState) (n : Nat),
      s.entries.length = n → s.configEntries.length = n → 1 < n →
      s.selected < n → env.saveOk = true →
      (remove_entry env s s.selected).1.selected = min s.selected (n - 2) ∧
      (remove_entry env s s.selected).1.entries.length = n - 1) := by
  constructor
  · exact fun evs s h => inv_handle_keys evs s h
  · intro env s n hel hcl hn hsel hsave
    unfold remove_entry
    rw [if_neg (by omega)]
    dsimp only
    simp only [hsave, Bool.not_true, Bool.false_eq_true, if_false, refresh_branches,
      sync_entries]
    have he : (List.map (fun e => (⟨e.config, branch_state_for env e.config⟩ : Entry))
        (List.map (fun c => (⟨c, BranchState.Unknown⟩ : Entry))
          (s.configEntries.eraseIdx s.selected))).length = n - 1 := by
      simp only [List.length_map]
      simp [List.length_eraseIdx, hcl]
      omega
    split
    next hemp =>
      exfalso
      rw [List.isEmpty_iff] at hemp
      rw [hemp] at he
      simp at he
      omega
    next hemp =>
      split
      next hge =>
        simp only [] at hge ⊢
        constructor
        · omega
        · exact he
      next hlt =>
        simp only [] at hlt ⊢
        constructor
        · omega
        · exact he

/-- A concrete environment used to instantiate the universally quantified
theorems: canonicalization fails everywhere (raw-path fallback), nothing
exists on disk, saving succeeds. -/
def envW : Env :=
  ⟨fun _ => none, fun _ => false, fun _ => false, fun _ => false,
   fun _ => Except.error "probe failed", fun _ => none, none, none,
   fun p => p, true, "failed to write config", fun _ => none⟩

/-- No-modifier key modifiers. -/
def noModsW : Mods :=
  ⟨false, false, false, false, false, false⟩

/-- A session state with three synced entries, the last one selected. -/
def appSel : AppState :=
  ⟨[⟨"/a", none⟩, ⟨"/b", none⟩, ⟨"/c", none⟩], none,
   [⟨⟨"/a", none⟩, .Unknown⟩, ⟨⟨"/b", none⟩, .Unknown⟩, ⟨⟨"/c", none⟩, .Unknown⟩],
   2, .Normal, [], 0, [], none, none, none, false⟩

/-- Witness for C4 at a concrete state, key sequence and removal. -/
theorem selection_always_in_bounds_witness :
    selection_inv appSel ∧
    selection_inv (handle_keys [(envW, ⟨KeyCode.Down, noModsW⟩)] appSel) ∧
    ((remove_entry envW appSel appSel.selected).1.selected =
        min appSel.selected (3 - 2) ∧
     (remove_entry envW appSel appSel.selected).1.entries.length = 3 - 1) :=
  ⟨by decide,
   selection_always_in_bounds.1 [(envW, ⟨KeyCode.Down, noModsW⟩)] appSel (by decide),
   selection_always_in_bounds.2 envW appSel 3 (by decide) (by decide) (by decide)
     (by decide) rfl⟩

/-! ## C5: Add-flow committing replaces a canonicalized-path match in
place and appends otherwise -/

theorem save_entry_config (env : Env) (s : AppState) (path : String)
    (editor : Option String) :
    (save_entry env s path editor).1.configEntries =
      upsertEntry env s.configEntries ⟨path, editor⟩ := by
  unfold save_entry
  dsimp only
  (repeat' split) <;> rfl

/-- C5: committing an Add flow whose path matches an existing entry by
canonicalized path (with raw-path fallback when canonicalization fails,
built into `normalize`) replaces the first matching entry in place — the
list keeps its length, no duplicate is appended — while a non-matching
path is appended as a new entry. -/
theorem add_commit_dedup (env : Env) (s : AppState) (path : String)
    (editor : Option String) (hsave : env.saveOk = true) :
    ((∃ e ∈ s.configEntries, normalize env e.path = normalize env path) →
      ∃ i e, s.configEntries[i]? = some e ∧
        normalize env e.path = normalize env path ∧
        (save_entry env s path editor).1.configEntries =
          s.configEntries.set i ⟨path, editor⟩ ∧
        (save_entry env s path editor).1.configEntries.length =
          s.configEntries.length) ∧
    ((∀ e ∈ s.configEntries, normalize env e.path ≠ normalize env path) →
      (save_entry env s path editor).1.configEntries =
        s.configEntries ++ [⟨path, editor⟩]) := by
  have hconf := save_entry_config env s path editor
  constructor
  · rintro ⟨e0, hmem, hnorm⟩
    cases hf : s.configEntries.findIdx? (entryMatches env path) with
    | none =>
      exfalso
      rw [List.findIdx?_eq_none_iff] at hf
      have := hf e0 hmem
      simp [entryMatches, hnorm] at this
    | some i =>
      obtain ⟨hlt, hp, _⟩ := (List.findIdx?_eq_some_iff_getElem).mp hf
      have hup : upsertEntry env s.configEntries ⟨path, editor⟩ =
          s.configEntries.set i ⟨path, editor⟩ := by
        unfold upsertEntry
        dsimp only
        rw [hf]
      refine ⟨i, s.configEntries[i], List.getElem?_eq_getElem hlt,
        by simpa [entryMatches] using hp, ?_, ?_⟩
      · rw [hconf, hup]
      · rw [hconf, hup]
        simp
  · intro hall
    have hf : s.configEntries.findIdx? (entryMatches env path) = none := by
      rw [List.findIdx?_eq_none_iff]
      intro x hx
      simp only [entryMatches]
      rw [beq_eq_false_iff_ne]
      exact hall x hx
    rw [hconf]
    unfold upsertEntry
    rw [hf]

/-- Witness for C5: a matching path (`"/b"`) is replaced in place, a
fresh path (`"/zz"`) is appended. -/
theorem add_commit_dedup_witness :
    envW.saveOk = true ∧
    (∃ e ∈ appSel.configEntries, normalize envW e.path = normalize envW "/b") ∧
    (∃ i e, appSel.configEntries[i]? = some e ∧
      normalize envW e.path = normalize envW "/b" ∧
      (save_entry envW appSel "/b" (some "vim")).1.configEntries =
        appSel.configEntries.set i ⟨"/b", some "vim"⟩ ∧
      (save_entry envW appSel "/b" (some "vim")).1.configEntries.length =
        appSel.configEntries.length) ∧
    (save_entry envW appSel "/zz" none).1.configEntries =
      appSel.configEntries ++ [⟨"/zz", none⟩] :=
  ⟨rfl, by decide,
   (add_commit_dedup envW appSel "/b" (some "vim") rfl).1 (by decide),
   (add_commit_dedup envW appSel "/zz" none rfl).2 (by decide)⟩

/-! ## C6: branch-status classification short-circuits -/

/-- C6: during a branch-status refresh, a non-existing path is classified
`Missing` and an existing non-directory path `Error "not a dir"`, in both
cases independent of the whole git collaborator (isRepository, branch and
diff probes); an existing directory that is not a repository is
classified `NotGit` independent of the branch/diff probe; and only
repository paths proceed to the branch/diff probe. The final conjunct
lifts the classification through `refresh_branches`. -/
theorem branch_status_short_circuit :
    ∀ (env env' : Env) (e : EntryConfig),
    (env.pathExists e.path = false → branch_state_for env e = .Missing) ∧
    (env.pathExists e.path = true → env.isDir e.path = false →
      branch_state_for env e = .Error "not a dir") ∧
    (env.pathExists e.path = true → env.isDir e.path = true →
      env.isGitRepo e.path = false → branch_state_for env e = .NotGit) ∧
    (env'.pathExists = env.pathExists → env'.isDir = env.isDir →
      (env.pathExists e.path = false ∨ env.isDir e.path = false) →
      branch_state_for env' e = branch_state_for env e) ∧
    (env'.pathExists = env.pathExists → env'.isDir = env.isDir →
      env'.isGitRepo = env.isGitRepo → env.isGitRepo e.path = false →
      branch_state_for env' e = branch_state_for env e) ∧
    (env.pathExists e.path = true → env.isDir e.path = true →
      env.isGitRepo e.path = true →
      branch_state_for env e =
        (match env.currentBranch e.path with
         | .ok b => .Ready ⟨b, ((env.diffStat e.path).getD (0, 0)).1,
             ((env.diffStat e.path).getD (0, 0)).2⟩
         | .error m => .Error m)) ∧
    (∀ (s : AppState) (i : Nat) (en : Entry), s.entries[i]? = some en →
      env.pathExists en.config.path = false →
      (refresh_branches env s).entries[i]? = some ⟨en.config, .Missing⟩) := by
  intro env env' e
  refine ⟨?_, ?_, ?_, ?_, ?_, ?_, ?_⟩
  · intro h
    simp [branch_state_for, h]
  · intro h1 h2
    simp [branch_state_for, h1, h2]
  · intro h1 h2 h3
    simp [branch_state_for, h1, h2, h3]
  · intro hpe hdir hcase
    unfold branch_state_for
    rw [hpe, hdir]
    rcases hcase with h | h <;> simp [h]
  · intro hpe hdir hgit hng
    unfold branch_state_for
    rw [hpe, hdir, hgit]
    by_cases h1 : env.pathExists e.path <;> by_cases h2 : env.isDir e.path <;>
      simp [h1, h2, hng]
  · intro h1 h2 h3
    simp [branch_state_for, h1, h2, h3]
  · intro s i en hsome hmiss
    unfold refresh_branches
    simp only [List.getElem?_map, hsome, Option.map_some']
    simp [branch_state_for, hmiss]

/-- Existing path that is not a directory. -/
def envND : Env :=
  {envW with pathExists := fun _ => true}

/-- Existing directory that is not a git repository. -/
def envNG : Env :=
  {envND with isDir := fun _ => true}

/-- Existing repository directory with a successful branch probe. -/
def envT : Env :=
  { envNG with
    isGitRepo := fun _ => true,
    currentBranch := fun _ => Except.ok "main", diffStat := fun _ => some (1, 2) }

/-- Same filesystem view as `envW` but a completely different git
collaborator. -/
def envW2 : Env :=
  { envW with
    isGitRepo := fun _ => true,
    currentBranch := fun _ => Except.ok "dev", diffStat := fun _ => some (7, 8) }

/-- Same filesystem and isRepository view as `envNG` but a different
branch/diff probe. -/
def envNG2 : Env :=
  { envNG with
    currentBranch := fun _ => Except.ok "dev",
    diffStat := fun _ => some (7, 8) }

/-- Witness for C6 at concrete environments and an entry. -/
theorem branch_status_short_circuit_witness :
    branch_state_for envW ⟨"/a", none⟩ = .Missing ∧
    branch_state_for envND ⟨"/a", none⟩ = .Error "not a dir" ∧
    branch_state_for envNG ⟨"/a", none⟩ = .NotGit ∧
    branch_state_for envW2 ⟨"/a", none⟩ = branch_state_for envW ⟨"/a", none⟩ ∧
    branch_state_for envNG2 ⟨"/a", none⟩ = branch_state_for envNG ⟨"/a", none⟩ ∧
    branch_state_for envT ⟨"/a", none⟩ =
      (match envT.currentBranch "/a" with
       | .ok b => .Ready ⟨b, ((envT.diffStat "/a").getD (0, 0)).1,
           ((envT.diffStat "/a").getD (0, 0)).2⟩
       | .error m => .Error m) ∧
    (refresh_branches envW appSel).entries[0]? = some ⟨⟨"/a", none⟩, .Missing⟩ :=
  ⟨(branch_status_short_circuit envW envW ⟨"/a", none⟩).1 rfl,
   (branch_status_short_circuit envND envND ⟨"/a", none⟩).2.1 rfl rfl,
   (branch_status_short_circuit envNG envNG ⟨"/a", none⟩).2.2.1 rfl rfl rfl,
   (branch_status_short_circuit envW envW2 ⟨"/a", none⟩).2.2.2.1 rfl rfl (Or.inl rfl),
   (branch_status_short_circuit envNG envNG2 ⟨"/a", none⟩).2.2.2.2.1 rfl rfl rfl rfl,
   (branch_status_short_circuit envT envT ⟨"/a", none⟩).2.2.2.2.2.1 rfl rfl rfl,
   (branch_status_short_circuit envW envW ⟨"/a", none⟩).2.2.2.2.2.2 appSel 0
     ⟨⟨"/a", none⟩, .Unknown⟩ rfl rfl⟩

/-! ## C7: a failed flow step reports an error status and keeps the flow
state in place -/

theorem cds_fail_frame (env : Env) (s : AppState) (flow : FlowKind) (err : String)
    (h : (complete_directory_step env s flow).2 = some err) :
    (complete_directory_step env s flow).1 = s := by
  revert h
  unfold complete_directory_step
  dsimp only
  split
  · intro _; rfl
  · split
    · intro _; rfl
    · split
      · intro _; rfl
      · intro hcon
        exact Option.noConfusion hcon

theorem save_entry_fail_fields (env : Env) (s : AppState) (path : String)
    (ed : Option String) (err : String)
    (h : (save_entry env s path ed).2 = some err) :
    (save_entry env s path ed).1.mode = s.mode ∧
    (save_entry env s path ed).1.inputBuffer = s.inputBuffer ∧
    (save_entry env s path ed).1.inputCursor = s.inputCursor ∧
    (save_entry env s path ed).1.pendingPath = s.pendingPath ∧
    (save_entry env s path ed).1.editingIndex = s.editingIndex := by
  revert h
  unfold save_entry
  dsimp only
  split
  · intro _; exact ⟨rfl, rfl, rfl, rfl, rfl⟩
  · intro hcon
    exact Option.noConfusion hcon

theorem update_entry_fail_fields (env : Env) (s : AppState) (idx : Nat) (path : String)
    (ed : Option String) (err : String)
    (h : (update_entry env s idx path ed).2 = some err) :
    (update_entry env s idx path ed).1.mode = s.mode ∧
    (update_entry env s idx path ed).1.inputBuffer = s.inputBuffer ∧
    (update_entry env s idx path ed).1.inputCursor = s.inputCursor ∧
    (update_entry env s idx path ed).1.pendingPath = s.pendingPath ∧
    (update_entry env s idx path ed).1.editingIndex = s.editingIndex := by
  revert h
  unfold update_entry
  dsimp only
  split
  · intro _; exact ⟨rfl, rfl, rfl, rfl, rfl⟩
  · cases ed <;> dsimp only <;> split
    · intro _; exact ⟨rfl, rfl, rfl, rfl, rfl⟩
    · intro hcon; exact Option.noConfusion hcon
    · intro _; exact ⟨rfl, rfl, rfl, rfl, rfl⟩
    · intro hcon; exact Option.noConfusion hcon

theorem add_commit_fail_fields (env : Env) (s1 : AppState) (path : String)
    (ed : Option String) (err : String)
    (h : (add_commit env s1 path ed).2 = some err) :
    (add_commit env s1 path ed).1.mode = s1.mode ∧
    (add_commit env s1 path ed).1.inputBuffer = s1.inputBuffer ∧
    (add_commit env s1 path ed).1.inputCursor = s1.inputCursor ∧
    (add_commit env s1 path ed).1.pendingPath = s1.pendingPath ∧
    (add_commit env s1 path ed).1.editingIndex = s1.editingIndex := by
  revert h
  unfold add_commit commit_result
  cases hsr : (save_entry env s1 path ed).2 with
  | some e =>
    intro _
    dsimp only
    exact save_entry_fail_fields env s1 path ed e hsr
  | none =>
    intro hcon
    dsimp only at hcon
    exact Option.noConfusion hcon

theorem edit_commit_fail_fields (env : Env) (s1 : AppState) (path : String)
    (ed : Option String) (err : String)
    (h : (edit_commit env s1 path ed).2 = some err) :
    (edit_commit env s1 path ed).1.mode = s1.mode ∧
    (edit_commit env s1 path ed).1.inputBuffer = s1.inputBuffer ∧
    (edit_commit env s1 path ed).1.inputCursor = s1.inputCursor ∧
    (edit_commit env s1 path ed).1.pendingPath = s1.pendingPath ∧
    (edit_commit env s1 path ed).1.editingIndex = s1.editingIndex := by
  revert h
  unfold edit_commit
  cases hei : s1.editingIndex with
  | none =>
    intro _
    dsimp only
    exact ⟨rfl, rfl, rfl, rfl, hei⟩
  | some idx =>
    unfold commit_result
    cases hsr : (update_entry env s1 idx path ed).2 with
    | some e =>
      intro _
      dsimp only
      simp only [hsr]
      have hf := update_entry_fail_fields env s1 idx path ed e hsr
      exact ⟨hf.1, hf.2.1, hf.2.2.1, hf.2.2.2.1, hf.2.2.2.2.trans hei⟩
    | none =>
      intro hcon
      dsimp only at hcon
      simp only [hsr] at hcon
      exact Option.noConfusion hcon

theorem ces_fail_fields (env : Env) (s : AppState) (flow : FlowKind) (err : String)
    (h : (complete_editor_step env s flow).2 = some err) :
    (complete_editor_step env s flow).1.mode = s.mode ∧
    (complete_editor_step env s flow).1.inputBuffer = s.inputBuffer ∧
    (complete_editor_step env s flow).1.inputCursor = s.inputCursor ∧
    (complete_editor_step env s flow).1.pendingPath = s.pendingPath ∧
    (complete_editor_step env s flow).1.editingIndex = s.editingIndex := by
  revert h
  unfold complete_editor_step
  split
  · intro _
    exact ⟨rfl, rfl, rfl, rfl, rfl⟩
  next path hp =>
    dsimp only
    by_cases he : String.mk (trimChars s.inputBuffer) = "" <;>
      simp only [he, if_true, if_false] <;> cases flow <;> dsimp only
    case pos.Add =>
      cases hc : (add_commit env s path none).2 with
      | some e =>
        intro _
        simp only [finish_flow, hc]
        exact add_commit_fail_fields env s path none e hc
      | none =>
        intro hcon
        simp only [finish_flow, hc] at hcon
        exact Option.noConfusion hcon
    case pos.Edit =>
      cases hc : (edit_commit env s path none).2 with
      | some e =>
        intro _
        simp only [finish_flow, hc]
        exact edit_commit_fail_fields env s path none e hc
      | none =>
        intro hcon
        simp only [finish_flow, hc] at hcon
        exact Option.noConfusion hcon
    case neg.Add =>
      cases hc : (add_commit env
          {s with defaultEditor := some (String.mk (trimChars s.inputBuffer))} path
          (some (String.mk (trimChars s.inputBuffer)))).2 with
      | some e =>
        intro _
        simp only [finish_flow, hc]
        exact add_commit_fail_fields env _ path _ e hc
      | none =>
        intro hcon
        simp only [finish_flow, hc] at hcon
        exact Option.noConfusion hcon
    case neg.Edit =>
      cases hc : (edit_commit env
          {s with defaultEditor := some (String.mk (trimChars s.inputBuffer))} path
          (some (String.mk (trimChars s.inputBuffer)))).2 with
      | some e =>
        intro _
        simp only [finish_flow, hc]
        exact edit_commit_fail_fields env _ path _ e hc
      | none =>
        intro hcon
        simp only [finish_flow, hc] at hcon
        exact Option.noConfusion hcon

/-- C7: when completing either flow step fails, the error is reported as
an Error status message and the session stays in `Input` mode at the same
flow and step, with the edit buffer, cursor, pending path, and editing
index unchanged. -/
theorem flow_step_failure_preserves_state (env : Env) (s : AppState) (flow : FlowKind)
    (step : FlowStep) (err : String)
    (hmode : s.mode = .Input flow step)
    (hfail : (flow_step_result env s flow step).2 = some err) :
    (submit_flow_step env s flow step).mode = .Input flow step ∧
    (submit_flow_step env s flow step).inputBuffer = s.inputBuffer ∧
    (submit_flow_step env s flow step).inputCursor = s.inputCursor ∧
    (submit_flow_step env s flow step).pendingPath = s.pendingPath ∧
    (submit_flow_step env s flow step).editingIndex = s.editingIndex ∧
    (submit_flow_step env s flow step).status = some ⟨err, .Error⟩ := by
  unfold submit_flow_step
  dsimp only
  simp only [hfail]
  cases step with
  | Directory =>
    have hr := cds_fail_frame env s flow err hfail
    unfold flow_step_result at hr ⊢
    rw [hr]
    exact ⟨hmode, rfl, rfl, rfl, rfl, rfl⟩
  | Editor =>
    have hr := ces_fail_fields env s flow err hfail
    unfold flow_step_result at hr ⊢
    exact ⟨hr.1.trans hmode, hr.2.1, hr.2.2.1, hr.2.2.2.1, hr.2.2.2.2, rfl⟩

/-- A session in the Add flow's Directory step with an empty buffer. -/
def appDirStep : AppState :=
  ⟨[], none, [], 0, .Input .Add .Directory, [], 0, [], none, none,
   some ⟨"Enter directory path", .Info⟩, false⟩

/-- Witness for C7: submitting the Directory step with an empty buffer. -/
theorem flow_step_failure_preserves_state_witness :
    appDirStep.mode = .Input .Add .Directory ∧
    (flow_step_result envW appDirStep .Add .Directory).2 =
      some "directory path cannot be empty" ∧
    ((submit_flow_step envW appDirStep .Add .Directory).mode =
        .Input .Add .Directory ∧
     (submit_flow_step envW appDirStep .Add .Directory).inputBuffer =
        appDirStep.inputBuffer ∧
     (submit_flow_step envW appDirStep .Add .Directory).inputCursor =
        appDirStep.inputCursor ∧
     (submit_flow_step envW appDirStep .Add .Directory).pendingPath =
        appDirStep.pendingPath ∧
     (submit_flow_step envW appDirStep .Add .Directory).editingIndex =
        appDirStep.editingIndex ∧
     (submit_flow_step envW appDirStep .Add .Directory).status =
        some ⟨"directory path cannot be empty", .Error⟩) :=
  ⟨rfl, rfl,
   flow_step_failure_preserves_state envW appDirStep .Add .Directory
     "directory path cannot be empty" rfl rfl⟩

/-! ## C8: cancelling a flow -/

/-- A session inside the Add flow holding buffer text, kill-ring text and
a status message. -/
def appFlowStatus : AppState :=
  ⟨[], none, [], 0, .Input .Add .Directory, ['x'], 1, ['k'], none, none,
   some ⟨"Enter directory path", .Info⟩, false⟩

/-- C8 counterexample: cancelling via escape returns to `Normal` but does
NOT clear the status message — the pre-existing Info message survives the
cancel, refuting the claim that cancel clears it. -/
theorem cancel_keeps_status_counterexample :
    appFlowStatus.mode = .Input .Add .Directory ∧
    appFlowStatus.status = some ⟨"Enter directory path", .Info⟩ ∧
    (handle_key envW ⟨.Esc, noModsW⟩ appFlowStatus).mode = .Normal ∧
    (handle_key envW ⟨.Esc, noModsW⟩ appFlowStatus).status =
      some ⟨"Enter directory path", .Info⟩ ∧
    ¬ ((handle_key envW ⟨.Esc, noModsW⟩ appFlowStatus).status = none) := by
  decide

/-- C8 (amended): cancelling a flow at any step, via escape or the
explicit Ctrl+G cancel combo, returns the mode to `Normal` and discards
the edit buffer contents, cursor, pending path, editing index and
kill-ring — but it leaves the status message (and the rest of the
session state) unchanged; the status is not cleared, only later
auto-expired in `Normal` mode. -/
theorem cancel_flow_discards_flow_state (env : Env) (s : AppState) (flow : FlowKind)
    (step : FlowStep) (key : KeyEvent)
    (hmode : s.mode = .Input flow step)
    (hkey : key.code = .Esc ∨ (key.code = .Char 'g' ∧ key.mods.ctrl = true)) :
    handle_key env key s =
      { s with
        mode := .Normal, inputBuffer := [], inputCursor := 0,
        pendingPath := none, editingIndex := none, killBuffer := [] } := by
  unfold handle_key
  rcases hkey with hk | ⟨hk, hctrl⟩
  · rw [if_neg (by simp [hk])]
    rw [hmode]
    dsimp only
    unfold handle_input_key
    rw [hk]
    unfold handle_ctrl_input handle_super_input handle_alt_input
    simp only [ite_self]
    rfl
  · rw [if_neg (by simp [hk])]
    rw [hmode]
    dsimp only
    unfold handle_input_key
    rw [hk, hctrl]
    simp only [if_true]
    unfold handle_ctrl_input
    norm_num
    rfl

/-- Witness for the amended C8 at a concrete state and the escape key. -/
theorem cancel_flow_discards_flow_state_witness :
    appFlowStatus.mode = .Input .Add .Directory ∧
    handle_key envW ⟨.Esc, noModsW⟩ appFlowStatus =
      { appFlowStatus with
        mode := .Normal, inputBuffer := [], inputCursor := 0,
        pendingPath := none, editingIndex := none, killBuffer := [] } :=
  ⟨rfl,
   cancel_flow_discards_flow_state envW appFlowStatus .Add .Directory
     ⟨.Esc, noModsW⟩ rfl (Or.inl rfl)⟩

/-! ## C9: a failed save during the Editor step does not roll back the
side effects applied before it -/

/-- C9: if `save_config` fails while committing the Editor step with a
non-empty trimmed editor command, the mutations applied before the save
stick: the in-memory default editor holds the new command and (for Add)
the config entry list has been upserted, (for Edit) the entry at the
captured index replaced — while the displayed entry projection, the mode
(still the Editor step), the buffer, cursor, pending path and editing
index are all as before, and the save error is reported as an Error
status. Both conclusions are full-state equations: every field not
listed in the record update is unchanged. -/
theorem save_entry_fail_eq (env : Env) (s : AppState) (path : String)
    (ed : Option String) (h : env.saveOk = false) :
    save_entry env s path ed =
      ({s with configEntries := upsertEntry env s.configEntries ⟨path, ed⟩},
       some env.saveErr) := by
  unfold save_entry
  simp [h]

theorem add_commit_fail_eq (env : Env) (s : AppState) (path : String)
    (ed : Option String) (h : env.saveOk = false) :
    add_commit env s path ed =
      ({s with configEntries := upsertEntry env s.configEntries ⟨path, ed⟩},
       some env.saveErr) := by
  unfold add_commit
  rw [save_entry_fail_eq env s path ed h]
  rfl

theorem update_entry_fail_eq (env : Env) (s : AppState) (idx : Nat) (path : String)
    (ed : Option String) (hidx : idx < s.configEntries.length)
    (h : env.saveOk = false) :
    update_entry env s idx path ed =
      ((match ed with
        | some cmd =>
          { s with
            defaultEditor := some cmd,
            configEntries := s.configEntries.set idx ⟨path, ed⟩ }
        | none => {s with configEntries := s.configEntries.set idx ⟨path, ed⟩}),
       some env.saveErr) := by
  unfold update_entry
  rw [if_neg (by omega)]
  dsimp only
  cases ed <;> dsimp only <;> simp [h]

theorem edit_commit_fail_eq (env : Env) (s : AppState) (idx : Nat) (path cmd : String)
    (hei : s.editingIndex = some idx) (hidx : idx < s.configEntries.length)
    (h : env.saveOk = false) :
    edit_commit env s path (some cmd) =
      ({ s with
         defaultEditor := some cmd,
         configEntries := s.configEntries.set idx ⟨path, some cmd⟩ },
       some env.saveErr) := by
  unfold edit_commit
  simp only [hei]
  rw [update_entry_fail_eq env s idx path (some cmd) hidx h]
  simp [commit_result, hei]

/-- C9: if `save_config` fails while committing the Editor step with a
non-empty trimmed editor command, the mutations applied before the save
stick: the in-memory default editor holds the new command and (for Add)
the config entry list has been upserted, (for Edit) the entry at the
captured index replaced — while the displayed entry projection, the mode
(still the Editor step), the buffer, cursor, pending path and editing
index are all as before, and the save error is reported as an Error
status. Both conclusions are full-state equations: every field not
listed in the record update is unchanged. -/
theorem editor_commit_save_failure_keeps_side_effects
    (env : Env) (s : AppState) (path cmd : String)
    (hsave : env.saveOk = false)
    (hp : s.pendingPath = some path)
    (htrim : String.mk (trimChars s.inputBuffer) = cmd)
    (hcmd : cmd ≠ "") :
    (submit_flow_step env s .Add .Editor =
      { s with
        defaultEditor := some cmd,
        configEntries := upsertEntry env s.configEntries ⟨path, some cmd⟩,
        status := some ⟨env.saveErr, .Error⟩ }) ∧
    (∀ i, s.editingIndex = some i → i < s.configEntries.length →
      submit_flow_step env s .Edit .Editor =
        { s with
          defaultEditor := some cmd,
          configEntries := s.configEntries.set i ⟨path, some cmd⟩,
          status := some ⟨env.saveErr, .Error⟩ }) := by
  constructor
  · have hces : complete_editor_step env s .Add =
        ({ s with
           defaultEditor := some cmd,
           configEntries := upsertEntry env s.configEntries ⟨path, some cmd⟩},
         some env.saveErr) := by
      unfold complete_editor_step
      simp only [hp]
      try dsimp only
      rw [htrim, if_neg hcmd]
      try dsimp only
      rw [add_commit_fail_eq env _ path _ hsave]
      rfl
    unfold submit_flow_step flow_step_result
    rw [hces]
    rfl
  · intro i hei hlt
    have hces : complete_editor_step env s .Edit =
        ({ s with
           defaultEditor := some cmd,
           configEntries := s.configEntries.set i ⟨path, some cmd⟩},
         some env.saveErr) := by
      unfold complete_editor_step
      simp only [hp]
      try dsimp only
      rw [htrim, if_neg hcmd]
      try dsimp only
      have hrec := edit_commit_fail_eq env
        { s with defaultEditor := some cmd, pendingPath := some path } i path cmd
        hei hlt hsave
      rw [hrec]
      rfl
    unfold submit_flow_step flow_step_result
    rw [hces]
    rfl

/-- `envW` with a failing save. -/
def envF : Env :=
  { envW with saveOk := false }

/-- A session in the Add flow's Editor step, editor command typed,
pending path captured. -/
def appEdStep : AppState :=
  ⟨[⟨"/a", none⟩], none, [⟨⟨"/a", none⟩, .Unknown⟩], 0, .Input .Add .Editor,
   "vim".toList, 3, [], some "/p", none, none, false⟩

/-- Witness for C9: failing Add commit at a concrete state. -/
theorem editor_commit_save_failure_keeps_side_effects_witness :
    envF.saveOk = false ∧
    appEdStep.pendingPath = some "/p" ∧
    String.mk (trimChars appEdStep.inputBuffer) = "vim" ∧
    submit_flow_step envF appEdStep .Add .Editor =
      { appEdStep with
        defaultEditor := some "vim",
        configEntries := upsertEntry envF appEdStep.configEntries ⟨"/p", some "vim"⟩,
        status := some ⟨envF.saveErr, .Error⟩ } :=
  ⟨rfl, rfl, by decide,
   (editor_commit_save_failure_keeps_side_effects envF appEdStep "/p" "vim"
     rfl rfl (by decide) (by decide)).1⟩

/-! ## C10: an Edit commit replaces only the captured index, with no
deduplication -/

/-- C10: a successful Edit commit through `update_entry` replaces exactly
the entry at the captured editing index and leaves every other entry
unchanged — the list keeps its length and no canonicalized-path
deduplication is performed, so the commit can leave two entries whose
canonicalized paths are equal. -/
theorem update_entry_replaces_only_index (env : Env) (s : AppState) (idx : Nat)
    (path : String) (editor : Option String)
    (hidx : idx < s.configEntries.length) (hsave : env.saveOk = true) :
    (update_entry env s idx path editor).2 = none ∧
    (update_entry env s idx path editor).1.configEntries =
      s.configEntries.set idx ⟨path, editor⟩ ∧
    (update_entry env s idx path editor).1.configEntries.length =
      s.configEntries.length ∧
    (∀ j, j ≠ idx →
      (update_entry env s idx path editor).1.configEntries[j]? =
        s.configEntries[j]?) := by
  have hconf : (update_entry env s idx path editor).1.configEntries =
      s.configEntries.set idx ⟨path, editor⟩ := by
    unfold update_entry
    rw [if_neg (by omega)]
    dsimp only
    cases editor <;> dsimp only <;> (repeat' split) <;> rfl
  have hsnd : (update_entry env s idx path editor).2 = none := by
    unfold update_entry
    rw [if_neg (by omega)]
    dsimp only
    cases editor <;> dsimp only <;> simp [hsave]
  refine ⟨hsnd, hconf, ?_, ?_⟩
  · rw [hconf]
    simp
  · intro j hj
    rw [hconf]
    exact List.getElem?_set_ne (Ne.symm hj)

/-- Witness for C10: updating index 0 of a three-entry list to the path
of index 1 replaces only index 0 and leaves two entries with equal
canonicalized paths. -/
theorem update_entry_replaces_only_index_witness :
    0 < appSel.configEntries.length ∧ envW.saveOk = true ∧
    ((update_entry envW appSel 0 "/b" (some "code")).2 = none ∧
     (update_entry envW appSel 0 "/b" (some "code")).1.configEntries =
       appSel.configEntries.set 0 ⟨"/b", some "code"⟩ ∧
     (update_entry envW appSel 0 "/b" (some "code")).1.configEntries.length =
       appSel.configEntries.length ∧
     (update_entry envW appSel 0 "/b" (some "code")).1.configEntries[1]? =
       appSel.configEntries[1]?) ∧
    normalize envW
        (((update_entry envW appSel 0 "/b" (some "code")).1.configEntries.getD 0
          ⟨"", none⟩).path) =
      normalize envW
        (((update_entry envW appSel 0 "/b" (some "code")).1.configEntries.getD 1
          ⟨"", none⟩).path) :=
  ⟨by decide, rfl,
   ⟨(update_entry_replaces_only_index envW appSel 0 "/b" (some "code")
       (by decide) rfl).1,
    (update_entry_replaces_only_index envW appSel 0 "/b" (some "code")
       (by decide) rfl).2.1,
    (update_entry_replaces_only_index envW appSel 0 "/b" (some "code")
       (by decide) rfl).2.2.1,
    (update_entry_replaces_only_index envW appSel 0 "/b" (some "code")
       (by decide) rfl).2.2.2 1 (by decide)⟩,
   by decide⟩

end Gmux
